import Mathlib

/-!
Verification development for the cursor-chat-transfer chat-record transfer
engine (src/lib/transfer.js, src/lib/db.js, src/extension.js).

The JavaScript source is shallowly embedded: JS objects become association
lists (`List (String × String)` with insertion-order preserving update
semantics), JS arrays become `List`, the statement
`s.split(x).join(y)` (replace every leftmost non-overlapping occurrence
of `x` in `s` by `y`) becomes `replaceAll`, and the I/O-effect structure of
`importFromObject` becomes an explicit event-trace function `runImport`.
-/

namespace CCT

/-! ## JS string replacement: `s.split(x).join(y)`

`replaceAll x y s` replaces every leftmost non-overlapping occurrence of
`x` in `s` by `y`, exactly as JavaScript `s.split(x).join(y)` does for a
non-empty separator `x` (transfer.js lines 263-267, 285, 293).
-/

variable {α : Type} [DecidableEq α]

def replaceAll (x y : List α) : List α → List α
  | [] => []
  | c :: rest =>
    if h : x ≠ [] ∧ x.isPrefixOf (c :: rest) then
      y ++ replaceAll x y ((c :: rest).drop x.length)
    else
      c :: replaceAll x y rest
termination_by s => s.length
decreasing_by
  · simp only [List.length_drop, List.length_cons]
    have hx : 0 < x.length := List.length_pos.mpr h.1
    omega
  · simp [Nat.lt_succ_self]

theorem replaceAll_nil (x y : List α) : replaceAll x y [] = [] := by
  simp [replaceAll]

theorem replaceAll_cons_pos {x : List α} (y : List α) {c : α} {rest : List α}
    (hx : x ≠ []) (hp : x <+: (c :: rest)) :
    replaceAll x y (c :: rest) = y ++ replaceAll x y ((c :: rest).drop x.length) := by
  rw [replaceAll]
  rw [dif_pos ⟨hx, List.isPrefixOf_iff_prefix.mpr hp⟩]

theorem replaceAll_cons_neg {x : List α} (y : List α) {c : α} {rest : List α}
    (hp : ¬ x <+: (c :: rest)) :
    replaceAll x y (c :: rest) = c :: replaceAll x y rest := by
  rw [replaceAll]
  rw [dif_neg (by
    rintro ⟨-, h2⟩
    exact hp (List.isPrefixOf_iff_prefix.mp h2))]

/-- Decomposition of an occurrence inside a concatenation: an occurrence of
`x` in `u ++ v` lies inside `u`, inside `v`, or crosses the boundary with a
nonempty left part that is a suffix of `u` and a nonempty right part that is
a prefix of `v`. -/
theorem infix_append_cases {x u v : List α} (h : x <:+: u ++ v) :
    x <:+: u ∨ x <:+: v ∨
      ∃ a b, x = a ++ b ∧ a ≠ [] ∧ b ≠ [] ∧ a <:+ u ∧ b <+: v := by
  induction u with
  | nil => exact Or.inr (Or.inl (by simpa using h))
  | cons c u ih =>
    rcases List.infix_cons_iff.mp (by simpa using h) with hpre | hrest
    · -- x is a prefix of (c :: u) ++ v
      by_cases hlen : x.length ≤ (c :: u).length
      · left
        exact (List.prefix_of_prefix_length_le hpre (List.prefix_append _ _) (by simpa using hlen)).isInfix
      · have hcu : (c :: u) <+: x :=
          List.prefix_of_prefix_length_le (List.prefix_append _ _) hpre (by omega)
        obtain ⟨b, hb⟩ := hcu
        right; right
        refine ⟨c :: u, b, hb.symm, by simp, ?_, List.suffix_rfl, ?_⟩
        · rintro rfl
          rw [List.append_nil] at hb
          have hL := congrArg List.length hb
          simp only [List.length_cons] at hL hlen
          omega
        · -- b <+: v, from (c :: u) ++ b <+: (c :: u) ++ v
          rw [← hb] at hpre
          exact (List.prefix_append_right_inj (c :: u)).mp hpre
    · rcases ih hrest with h1 | h2 | ⟨a, b, hab, ha, hb, hsuf, hpre⟩
      · exact Or.inl (List.infix_cons h1)
      · exact Or.inr (Or.inl h2)
      · exact Or.inr (Or.inr ⟨a, b, hab, ha, hb, hsuf.trans (List.suffix_cons c u), hpre⟩)

/-- Nonempty suffixes of `z` that are prefixes of `replaceAll x y s` were
already prefixes of `s`, provided no nonempty proper suffix of `z` is a
prefix of `y` and `y` is not an infix of `z`. -/
theorem prefix_replaceAll_rev {x y z : List α} (hx0 : x ≠ [])
    (hg3 : ∀ k, 0 < k → k < z.length → ¬ (z.drop k <+: y))
    (hg4 : ¬ y <:+: z) :
    ∀ s w, w <:+ z → w ≠ z → w ≠ [] → w <+: replaceAll x y s → w <+: s := by
  intro s
  induction s with
  | nil =>
    intro w _ _ hw hpre
    rw [replaceAll_nil] at hpre
    exact absurd (List.prefix_nil.mp hpre) hw
  | cons c rest ih =>
    intro w hwz hwne hw hpre
    by_cases hx : x ≠ [] ∧ x <+: (c :: rest)
    · rw [replaceAll_cons_pos y hx.1 hx.2] at hpre
      -- w <+: y ++ R; compare w with y
      rcases List.prefix_or_prefix_of_prefix hpre (List.prefix_append y _) with hwy | hyw
      · -- w is a prefix of y and a nonempty proper suffix of z: contradiction
        obtain ⟨t, ht⟩ := hwz
        have htne : t ≠ [] := by rintro rfl; rw [List.nil_append] at ht; exact hwne ht
        have hk1 : 0 < t.length := List.length_pos.mpr htne
        have hk2 : t.length < z.length := by
          have := congrArg List.length ht
          simp at this
          have hwpos : 0 < w.length := List.length_pos.mpr hw
          omega
        have hdrop : z.drop t.length = w := by
          rw [← ht]; simp
        exact absurd hwy (hdrop ▸ hg3 t.length hk1 hk2)
      · -- y <+: w and w <:+ z gives y <:+: z: contradiction
        exact absurd (hyw.isInfix.trans hwz.isInfix) hg4
    · have hneg : ¬ x <+: (c :: rest) := fun hc => hx ⟨hx0, hc⟩
      rw [replaceAll_cons_neg y hneg] at hpre
      obtain ⟨d, w', rfl⟩ : ∃ d w', w = d :: w' := by
        cases w with
        | nil => exact absurd rfl hw
        | cons d w' => exact ⟨d, w', rfl⟩
      obtain ⟨hdc, hw'⟩ := List.cons_prefix_cons.mp hpre
      by_cases hw'e : w' = []
      · subst hw'e
        exact List.cons_prefix_cons.mpr ⟨hdc, List.nil_prefix⟩
      · have hw'z : w' <:+ z := (List.suffix_cons d w').trans hwz
        have hw'nez : w' ≠ z := by
          intro h
          have h2 : (d :: w').length ≤ z.length := List.IsSuffix.length_le hwz
          simp [← h] at h2
        exact List.cons_prefix_cons.mpr ⟨hdc, ih w' hw'z hw'nez hw'e hw'⟩

/-- After `replaceAll x y s`, no occurrence of `x` remains, provided the
identifiers do not accidentally overlap: `x` is not inside `y`, `y` is not
inside `x`, no nonempty proper prefix of `x` is a suffix of `y` and no
nonempty proper suffix of `x` is a prefix of `y`. -/
theorem replaceAll_not_infix {x y : List α} (hx : x ≠ [])
    (h1 : ¬ x <:+: y)
    (h2 : ∀ k, 0 < k → k < x.length → ¬ (x.take k <:+ y))
    (h3 : ∀ k, 0 < k → k < x.length → ¬ (x.drop k <+: y))
    (h4 : ¬ y <:+: x) :
    ∀ s, ¬ x <:+: replaceAll x y s := by
  suffices H : ∀ n (s : List α), s.length ≤ n → ¬ x <:+: replaceAll x y s from
    fun s => H s.length s le_rfl
  intro n
  induction n with
  | zero =>
    intro s hs
    have hse : s = [] := List.length_eq_zero.mp (Nat.le_zero.mp hs)
    subst hse
    rw [replaceAll_nil]
    rw [List.infix_nil]
    exact hx
  | succ n ih =>
    intro s hs hinf
    cases s with
    | nil =>
      rw [replaceAll_nil] at hinf
      exact hx (List.infix_nil.mp hinf)
    | cons c rest =>
      by_cases hp : x <+: (c :: rest)
      · rw [replaceAll_cons_pos y hx hp] at hinf
        rcases infix_append_cases hinf with hiy | hiR | ⟨a, b, hab, ha, hb, hsuf, -⟩
        · exact h1 hiy
        · have hxpos : 0 < x.length := List.length_pos.mpr hx
          have hlen : ((c :: rest).drop x.length).length ≤ n := by
            simp only [List.length_drop, List.length_cons]
            simp only [List.length_cons] at hs
            omega
          exact ih _ hlen hiR
        · have hk1 : 0 < a.length := List.length_pos.mpr ha
          have hk2 : a.length < x.length := by
            have hL := congrArg List.length hab
            simp only [List.length_append] at hL
            have hbpos : 0 < b.length := List.length_pos.mpr hb
            omega
          have htake : x.take a.length = a := by rw [hab, List.take_left]
          exact h2 a.length hk1 hk2 (by rw [htake]; exact hsuf)
      · rw [replaceAll_cons_neg y hp] at hinf
        rcases List.infix_cons_iff.mp hinf with hpre | hres
        · obtain ⟨d, x', rfl⟩ : ∃ d x', x = d :: x' := by
            cases x with
            | nil => exact absurd rfl hx
            | cons d x' => exact ⟨d, x', rfl⟩
          obtain ⟨hdc, hx'⟩ := List.cons_prefix_cons.mp hpre
          by_cases hx'e : x' = []
          · subst hx'e
            exact hp (List.cons_prefix_cons.mpr ⟨hdc, List.nil_prefix⟩)
          · have hx'suf : x' <:+ d :: x' := List.suffix_cons d x'
            have hx'ne : x' ≠ d :: x' := by
              intro hcontra
              have := congrArg List.length hcontra
              simp at this
            have hrec := prefix_replaceAll_rev hx h3 h4 rest x' hx'suf hx'ne hx'e hx'
            exact hp (List.cons_prefix_cons.mpr ⟨hdc, hrec⟩)
        · have : rest.length ≤ n := by
            simp only [List.length_cons] at hs
            omega
          exact ih rest this hres

/-- If `z` does not occur in `s`, then it still does not occur after
`replaceAll x y s`, provided `z` does not accidentally overlap with the
replacement `y`. -/
theorem replaceAll_preserves_not_infix {x y z : List α} (hx : x ≠ [])
    (hg1 : ¬ z <:+: y)
    (hg2 : ∀ k, 0 < k → k < z.length → ¬ (z.take k <:+ y))
    (hg3 : ∀ k, 0 < k → k < z.length → ¬ (z.drop k <+: y))
    (hg4 : ¬ y <:+: z) :
    ∀ s, ¬ z <:+: s → ¬ z <:+: replaceAll x y s := by
  suffices H : ∀ n (s : List α), s.length ≤ n → ¬ z <:+: s → ¬ z <:+: replaceAll x y s from
    fun s => H s.length s le_rfl
  intro n
  induction n with
  | zero =>
    intro s hs hzs
    have hse : s = [] := List.length_eq_zero.mp (Nat.le_zero.mp hs)
    subst hse
    rw [replaceAll_nil]
    exact hzs
  | succ n ih =>
    intro s hs hzs hinf
    cases s with
    | nil =>
      rw [replaceAll_nil] at hinf
      exact hzs hinf
    | cons c rest =>
      have hz : z ≠ [] := by
        rintro rfl
        exact hzs List.nil_infix
      by_cases hp : x <+: (c :: rest)
      · rw [replaceAll_cons_pos y hx hp] at hinf
        rcases infix_append_cases hinf with hiy | hiR | ⟨a, b, hab, ha, hb, hsuf, -⟩
        · exact hg1 hiy
        · have hxpos : 0 < x.length := List.length_pos.mpr hx
          have hlen : ((c :: rest).drop x.length).length ≤ n := by
            simp only [List.length_drop, List.length_cons]
            simp only [List.length_cons] at hs
            omega
          have hzdrop : ¬ z <:+: (c :: rest).drop x.length := fun hcon =>
            hzs (hcon.trans (List.drop_suffix x.length (c :: rest)).isInfix)
          exact ih _ hlen hzdrop hiR
        · have hk1 : 0 < a.length := List.length_pos.mpr ha
          have hk2 : a.length < z.length := by
            have hL := congrArg List.length hab
            simp only [List.length_append] at hL
            have hbpos : 0 < b.length := List.length_pos.mpr hb
            omega
          have htake : z.take a.length = a := by rw [hab, List.take_left]
          exact hg2 a.length hk1 hk2 (by rw [htake]; exact hsuf)
      · rw [replaceAll_cons_neg y hp] at hinf
        rcases List.infix_cons_iff.mp hinf with hpre | hres
        · obtain ⟨d, z', rfl⟩ : ∃ d z', z = d :: z' := by
            cases z with
            | nil => exact absurd rfl hz
            | cons d z' => exact ⟨d, z', rfl⟩
          obtain ⟨hdc, hz'⟩ := List.cons_prefix_cons.mp hpre
          by_cases hz'e : z' = []
          · subst hz'e
            exact hzs (List.cons_prefix_cons.mpr ⟨hdc, List.nil_prefix⟩ :
              [d] <+: c :: rest).isInfix
          · have hz'suf : z' <:+ d :: z' := List.suffix_cons d z'
            have hz'ne : z' ≠ d :: z' := by
              intro hcontra
              have := congrArg List.length hcontra
              simp at this
            have hrec := prefix_replaceAll_rev hx hg3 hg4 rest z' hz'suf hz'ne hz'e hz'
            exact hzs ((List.cons_prefix_cons.mpr ⟨hdc, hrec⟩ :
              d :: z' <+: c :: rest).isInfix)
        · have hlen : rest.length ≤ n := by
            simp only [List.length_cons] at hs
            omega
          have hzrest : ¬ z <:+: rest := fun hcon => hzs (List.infix_cons hcon)
          exact ih rest hlen hzrest hres

/-- If `x` occurs in `s`, then `y` occurs in `replaceAll x y s`. -/
theorem replaceAll_intro {x y : List α} (hx : x ≠ []) :
    ∀ s, x <:+: s → y <:+: replaceAll x y s := by
  intro s
  induction s with
  | nil =>
    intro h
    exact absurd (List.infix_nil.mp h) hx
  | cons c rest ih =>
    intro h
    by_cases hp : x <+: (c :: rest)
    · rw [replaceAll_cons_pos y hx hp]
      exact (List.prefix_append y _).isInfix
    · rw [replaceAll_cons_neg y hp]
      rcases List.infix_cons_iff.mp h with hpre | hres
      · exact absurd hpre hp
      · exact List.infix_cons (ih hres)

/-- Nonempty suffixes of `u` that are prefixes of `s` are still prefixes of
`replaceAll x y s`, provided `x` does not accidentally overlap with `u`. -/
theorem prefix_replaceAll_keep {x y u : List α}
    (hk1 : ¬ x <:+: u)
    (hk2 : ¬ u <:+: x)
    (hk4 : ∀ k, 0 < k → k < u.length → ¬ (u.drop k <+: x)) :
    ∀ s w, w <:+ u → w ≠ [] → w <+: s → w <+: replaceAll x y s := by
  intro s
  induction s with
  | nil =>
    intro w _ hw hpre
    exact absurd (List.prefix_nil.mp hpre) hw
  | cons c rest ih =>
    intro w hwu hw hpre
    have hnotp : ¬ x <+: (c :: rest) := by
      intro hxp
      rcases List.prefix_or_prefix_of_prefix hxp hpre with hxw | hwx
      · exact hk1 (hxw.isInfix.trans hwu.isInfix)
      · by_cases hwe : w = u
        · subst hwe
          exact hk2 hwx.isInfix
        · obtain ⟨t, ht⟩ := hwu
          have htne : t ≠ [] := by rintro rfl; rw [List.nil_append] at ht; exact hwe ht
          have hb1 : 0 < t.length := List.length_pos.mpr htne
          have hb2 : t.length < u.length := by
            have := congrArg List.length ht
            simp only [List.length_append] at this
            have hwpos : 0 < w.length := List.length_pos.mpr hw
            omega
          have hdrop : u.drop t.length = w := by rw [← ht]; simp
          exact hk4 t.length hb1 hb2 (hdrop ▸ hwx)
    rw [replaceAll_cons_neg y hnotp]
    obtain ⟨d, w', rfl⟩ : ∃ d w', w = d :: w' := by
      cases w with
      | nil => exact absurd rfl hw
      | cons d w' => exact ⟨d, w', rfl⟩
    obtain ⟨hdc, hw'⟩ := List.cons_prefix_cons.mp hpre
    by_cases hw'e : w' = []
    · subst hw'e
      exact List.cons_prefix_cons.mpr ⟨hdc, List.nil_prefix⟩
    · have hw'u : w' <:+ u := (List.suffix_cons d w').trans hwu
      exact List.cons_prefix_cons.mpr ⟨hdc, ih w' hw'u hw'e hw'⟩

/-- Occurrences of `u` in `s` survive `replaceAll x y s`, provided `x` does
not accidentally overlap with `u`. -/
theorem replaceAll_keeps_infix {x y u : List α} (hx : x ≠ []) (hu : u ≠ [])
    (hk1 : ¬ x <:+: u)
    (hk2 : ¬ u <:+: x)
    (hk3 : ∀ k, 0 < k → k < x.length → ¬ (x.drop k <+: u))
    (hk4 : ∀ k, 0 < k → k < u.length → ¬ (u.drop k <+: x)) :
    ∀ s, u <:+: s → u <:+: replaceAll x y s := by
  suffices H : ∀ n (s : List α), s.length ≤ n → u <:+: s → u <:+: replaceAll x y s from
    fun s => H s.length s le_rfl
  intro n
  induction n with
  | zero =>
    intro s hs hus
    have hse : s = [] := List.length_eq_zero.mp (Nat.le_zero.mp hs)
    subst hse
    exact absurd (List.infix_nil.mp hus) hu
  | succ n ih =>
    intro s hs hus
    cases s with
    | nil => exact absurd (List.infix_nil.mp hus) hu
    | cons c rest =>
      by_cases hup : u <+: (c :: rest)
      · exact (prefix_replaceAll_keep hk1 hk2 hk4 (c :: rest) u List.suffix_rfl hu hup).isInfix
      · have hurest : u <:+: rest := by
          rcases List.infix_cons_iff.mp hus with hpre | hres
          · exact absurd hpre hup
          · exact hres
        by_cases hp : x <+: (c :: rest)
        · rw [replaceAll_cons_pos y hx hp]
          -- the occurrence of u starts at position ≥ 1; show it survives the drop
          obtain ⟨p, q, hpq⟩ := hus
          have hpne : p ≠ [] := by
            rintro rfl
            rw [List.nil_append] at hpq
            exact hup ⟨q, hpq⟩
          have hxp : x.length ≤ p.length := by
            by_contra hlt
            push_neg at hlt
            have hppre : p <+: (c :: rest) := ⟨u ++ q, by rw [← hpq]; simp⟩
            have hpx : p <+: x := List.prefix_of_prefix_length_le hppre hp (Nat.le_of_lt hlt)
            obtain ⟨r, hr⟩ := hpx
            have hrne : r ≠ [] := by
              rintro rfl
              rw [List.append_nil] at hr
              have := congrArg List.length hr
              omega
            have hruq : r <+: u ++ q := by
              have : p ++ r <+: p ++ (u ++ q) := by
                rw [hr, ← List.append_assoc, hpq]
                exact hp
              exact (List.prefix_append_right_inj p).mp this
            rcases List.prefix_or_prefix_of_prefix hruq (List.prefix_append u q) with hru | hur
            · have hb1 : 0 < p.length := List.length_pos.mpr hpne
              have hb2 : p.length < x.length := hlt
              have hdropx : x.drop p.length = r := by rw [← hr]; simp
              exact hk3 p.length hb1 hb2 (hdropx ▸ hru)
            · exact hk2 (hur.isInfix.trans (List.IsSuffix.isInfix ⟨p, hr⟩))
          have hudrop : u <:+: (c :: rest).drop x.length := by
            have hdeq : (c :: rest).drop x.length = p.drop x.length ++ (u ++ q) := by
              rw [← hpq, List.append_assoc, List.drop_append_of_le_length hxp]
            exact ⟨p.drop x.length, q, by rw [hdeq, List.append_assoc]⟩
          have hxpos : 0 < x.length := List.length_pos.mpr hx
          have hlen : ((c :: rest).drop x.length).length ≤ n := by
            simp only [List.length_drop, List.length_cons]
            simp only [List.length_cons] at hs
            omega
          exact ((ih _ hlen hudrop).trans (List.suffix_append y _).isInfix)
        · rw [replaceAll_cons_neg y hp]
          have hlen : rest.length ≤ n := by
            simp only [List.length_cons] at hs
            omega
          exact List.infix_cons (ih rest hlen hurest)

/-! ## String-level wrappers -/

/-- JavaScript `s.split(x).join(y)` on strings. -/
def replaceAllS (x y s : String) : String := String.mk (replaceAll x.data y.data s.data)

/-- Textual containment: `x` occurs as a contiguous substring of `s`. -/
def ContainsS (x s : String) : Prop := x.data <:+: s.data

instance {x s : String} : Decidable (ContainsS x s) := by
  unfold ContainsS; infer_instance

/-- No nonempty proper prefix of `a` is a suffix of `b`, and no nonempty
proper suffix of `a` is a prefix of `b`. -/
def NoOverlap (a b : List Char) : Prop :=
  ∀ k, k < a.length → 0 < k → ¬ (a.take k <:+ b) ∧ ¬ (a.drop k <+: b)

instance {a b : List Char} : Decidable (NoOverlap a b) := by
  unfold NoOverlap; exact Nat.decidableBallLT _ _

/-- The pair of identifiers `u`, `v` has no accidental textual overlap:
neither occurs inside the other and no nonempty proper prefix/suffix of one
aligns with the other. Fresh 128-bit random identifiers satisfy this with
overwhelming probability (spec §9 documents substring collisions of literal
substitution as the known sharp edge). -/
def IndepIds (u v : String) : Prop :=
  ¬ u.data <:+: v.data ∧ ¬ v.data <:+: u.data ∧
    NoOverlap u.data v.data ∧ NoOverlap v.data u.data

instance {u v : String} : Decidable (IndepIds u v) := by
  unfold IndepIds; infer_instance

theorem data_ne_nil {s : String} (h : s ≠ "") : s.data ≠ [] := by
  intro hd
  apply h
  cases s with
  | mk l =>
    cases hd
    rfl

/-- Bubble-payload rewriting performed by `cloneExportObjectForCopy`
(transfer.js lines 263-267): first every occurrence of the old `bubbleId`
is replaced by the new one, then every occurrence of the old `composerId`
by the new one. -/
def rewriteBubbleValue (v oldB newB oldC newC : String) : String :=
  replaceAllS oldC newC (replaceAllS oldB newB v)

/-- C3. For a fragment whose payload textually contains its old `fragmentId`
(`oldB`) or its owning old `recordId` (`oldC`), the rewritten payload
contains zero occurrences of the old identifiers and at least one
occurrence of the corresponding new identifiers, provided the identifiers
involved have no accidental textual overlap. -/
theorem rewriteBubbleValue_cross_reference
    (v oldB newB oldC newC : String)
    (hoB : oldB ≠ "") (hoC : oldC ≠ "") (hnB : newB ≠ "") (hnC : newC ≠ "")
    (i1 : IndepIds oldB newB) (i2 : IndepIds oldC newC)
    (i3 : IndepIds oldB newC) (i4 : IndepIds oldC newB) (i5 : IndepIds oldB oldC)
    (hocc : ContainsS oldB v ∨ ContainsS oldC v) :
    ¬ ContainsS oldB (rewriteBubbleValue v oldB newB oldC newC) ∧
    ¬ ContainsS oldC (rewriteBubbleValue v oldB newB oldC newC) ∧
    (ContainsS oldB v → ContainsS newB (rewriteBubbleValue v oldB newB oldC newC)) ∧
    (ContainsS oldC v → ContainsS newC (rewriteBubbleValue v oldB newB oldC newC)) := by
  clear hocc
  have hb := data_ne_nil hoB
  have hc := data_ne_nil hoC
  have hnb := data_ne_nil hnB
  have hnc := data_ne_nil hnC
  set v1 : List Char := replaceAll oldB.data newB.data v.data with hv1
  have hval : (rewriteBubbleValue v oldB newB oldC newC).data =
      replaceAll oldC.data newC.data v1 := rfl
  refine ⟨?_, ?_, ?_, ?_⟩
  · -- no occurrence of the old bubbleId survives
    unfold ContainsS
    rw [hval]
    have hA : ¬ oldB.data <:+: v1 :=
      replaceAll_not_infix hb i1.1
        (fun k hk1 hk2 => (i1.2.2.1 k hk2 hk1).1)
        (fun k hk1 hk2 => (i1.2.2.1 k hk2 hk1).2)
        i1.2.1 v.data
    exact replaceAll_preserves_not_infix hc i3.1
      (fun k hk1 hk2 => (i3.2.2.1 k hk2 hk1).1)
      (fun k hk1 hk2 => (i3.2.2.1 k hk2 hk1).2)
      i3.2.1 v1 hA
  · -- no occurrence of the old composerId survives
    unfold ContainsS
    rw [hval]
    exact replaceAll_not_infix hc i2.1
      (fun k hk1 hk2 => (i2.2.2.1 k hk2 hk1).1)
      (fun k hk1 hk2 => (i2.2.2.1 k hk2 hk1).2)
      i2.2.1 v1
  · -- the new bubbleId appears
    intro hB
    unfold ContainsS at hB ⊢
    rw [hval]
    have hI : newB.data <:+: v1 := replaceAll_intro hb v.data hB
    exact replaceAll_keeps_infix hc hnb i4.1 i4.2.1
      (fun k hk1 hk2 => (i4.2.2.1 k hk2 hk1).2)
      (fun k hk1 hk2 => (i4.2.2.2 k hk2 hk1).2)
      v1 hI
  · -- the new composerId appears
    intro hC
    unfold ContainsS at hC ⊢
    rw [hval]
    have hK : oldC.data <:+: v1 := replaceAll_keeps_infix hb hc i5.1 i5.2.1
      (fun k hk1 hk2 => (i5.2.2.1 k hk2 hk1).2)
      (fun k hk1 hk2 => (i5.2.2.2 k hk2 hk1).2)
      v.data hC
    exact replaceAll_intro hc v1 hK

theorem rewriteBubbleValue_cross_reference_witness :
    ¬ ContainsS "b!" (rewriteBubbleValue "b! and c!" "b!" "B1" "c!" "C2") ∧
    ¬ ContainsS "c!" (rewriteBubbleValue "b! and c!" "b!" "B1" "c!" "C2") ∧
    (ContainsS "b!" "b! and c!" →
      ContainsS "B1" (rewriteBubbleValue "b! and c!" "b!" "B1" "c!" "C2")) ∧
    (ContainsS "c!" "b! and c!" →
      ContainsS "C2" (rewriteBubbleValue "b! and c!" "b!" "B1" "c!" "C2")) :=
  rewriteBubbleValue_cross_reference "b! and c!" "b!" "B1" "c!" "C2"
    (by decide) (by decide) (by decide) (by decide)
    (by decide) (by decide) (by decide) (by decide) (by decide)
    (Or.inl (by decide))

/-! ## Data model

A `Composer` is one entry of the Index document `composer.composerData`
(its metadata fields other than the ones the code touches are kept opaque
in `rest`).  A `Bubble` is one `{key, value, bubbleId}` record as returned
by `readBubblesForComposer` (db.js lines 403-429).  An `ExportObject` is
the snapshot `{allComposers, composers, bubbles}` built by
`buildExportObject`; JS objects become insertion-ordered association
lists. -/

structure Composer where
  composerId : String
  createdAt : Nat
  lastUpdatedAt : Nat
  rest : String
deriving DecidableEq, Repr

structure Bubble where
  key : String
  value : String
  bubbleId : String
deriving DecidableEq, Repr

structure ExportObject where
  allComposers : List Composer
  composers : List (String × String)
  bubbles : List (String × List Bubble)
deriving DecidableEq, Repr

/-- The Index document stored under the `composer.composerData` key of the
workspace store; `rest` stands for the other fields preserved verbatim by
`{ ...current, allComposers: ... }`. -/
structure IndexDoc where
  allComposers : List Composer
  rest : String
deriving DecidableEq, Repr

/-- The workspace `state.vscdb` file: the `composer.composerData` row of its
ItemTable (`none` when absent or not an array). -/
structure WsFile where
  composerData : Option IndexDoc
deriving DecidableEq, Repr

/-- The global `state.vscdb` file: its `cursorDiskKV` table. -/
structure GlFile where
  kv : List (String × String)
deriving DecidableEq, Repr

/-- The two target stores touched by a transfer operation. -/
structure FS where
  ws : WsFile
  gl : GlFile
deriving DecidableEq, Repr

/-- JS object property assignment `m[k] = v`: replaces the value in place
when the key exists (keeping its position) and appends otherwise. -/
def objSet {β : Type} (m : List (String × β)) (k : String) (v : β) :
    List (String × β) :=
  if (m.lookup k).isSome then m.map (fun p => if p.1 = k then (k, v) else p)
  else m ++ [(k, v)]

/-! ## db.js storage-access layer -/

/-- One `INSERT OR IGNORE INTO cursorDiskKV` statement: an existing key is
left untouched, a new key is appended. -/
def insertOrIgnore (kv : List (String × String)) (p : String × String) :
    List (String × String) :=
  if (kv.lookup p.1).isSome then kv else kv ++ [p]

/-- `insertKVWithCLI` (db.js lines 153-182): inserts all pairs with
`INSERT OR IGNORE` and returns `keyValuePairs.length` — the number of
attempted insertions, not the number of rows actually inserted. -/
def insertKVWithCLI (gl : GlFile) (pairs : List (String × String)) :
    Nat × GlFile :=
  (pairs.length, ⟨pairs.foldl insertOrIgnore gl.kv⟩)

/-- `checkIntegrity` (db.js lines 306-321): when the sqlite3 CLI cannot be
found it returns `true` ("Can't check, assume OK"); otherwise it runs
`PRAGMA integrity_check` and compares the trimmed output with `"ok"`,
returning `false` when the command itself fails (`pragmaOutput = none`). -/
def checkIntegrity (sqlite3Path : Option String) (pragmaOutput : Option String) : Bool :=
  match sqlite3Path with
  | none => true
  | some _ =>
    match pragmaOutput with
    | none => false
    | some out => out.trim == "ok"

/-- `readBubblesForComposer` (db.js lines 403-429): scan `cursorDiskKV` for
keys starting with `bubbleId:<composerId>:` and re-derive the bubbleId from
the key by splitting on `:` (joining back everything after the second
part). -/
def readBubblesForComposer (gl : GlFile) (composerId : String) : List Bubble :=
  (gl.kv.filter (fun p => ("bubbleId:" ++ composerId ++ ":").isPrefixOf p.1)).filterMap
    (fun p =>
      let parts := p.1.splitOn ":"
      if parts.length ≥ 3 ∧ parts.headI = "bubbleId" then
        some ⟨p.1, p.2, String.intercalate ":" (parts.drop 2)⟩
      else none)

/-! ## transfer.js: export -/

/-- The Index document the code works with after reading
`composer.composerData`: the parsed row, or `{}` when absent. -/
def wsDoc (ws : WsFile) : IndexDoc := ws.composerData.getD ⟨[], ""⟩

/-- `buildExportObject` (transfer.js lines 18-111), as a pure function of
the two store contents.  With no Index present the export is empty.  The
selection filter is applied only when the selection list is a nonempty
array (line 40). -/
def buildExportObject (ws : WsFile) (gl : GlFile)
    (selectedComposerIds : Option (List String)) : ExportObject :=
  match ws.composerData with
  | none => ⟨[], [], []⟩
  | some doc =>
    let allComposers :=
      match selectedComposerIds with
      | some ids =>
        if ids.length > 0 then
          doc.allComposers.filter (fun c => ids.contains c.composerId)
        else doc.allComposers
      | none => doc.allComposers
    let ids := (allComposers.map (fun c => c.composerId)).filter (fun s => s ≠ "")
    let composers := ids.foldl (fun acc id =>
      match gl.kv.lookup ("composerData:" ++ id) with
      | some v => if v = "" then acc else objSet acc id v
      | none => acc) []
    let bubbles := ids.foldl (fun acc id =>
      let bs := readBubblesForComposer gl id
      if bs.length > 0 then objSet acc id bs else acc) []
    ⟨allComposers, composers, bubbles⟩

/-- A read-only handle as produced by `openSqliteReadOnly` (db.js lines
327-350): an in-memory copy of the file buffer; `closeReadOnly` discards it
without writing anything back. -/
structure ROHandle (σ : Type) where
  mem : σ

def openSqliteReadOnly {σ : Type} (file : σ) : ROHandle σ := ⟨file⟩

/-- `buildExportObject` together with its effect on the file system: both
stores are opened read-only on in-memory copies, all queries are `SELECT`s
against those copies, and the handles are closed without a write-back, so
the stores come out exactly as they went in. -/
def buildExportObjectFS (fs : FS) (selectedComposerIds : Option (List String)) :
    ExportObject × FS :=
  let wsDb := openSqliteReadOnly fs.ws
  let glDb := openSqliteReadOnly fs.gl
  (buildExportObject wsDb.mem glDb.mem selectedComposerIds, fs)

/-! ## transfer.js: import -/

/-- The `(key, value)` pairs prepared for the global store (transfer.js
lines 140-154): one `composerData:<id>` pair per snapshot payload plus one
pair per bubble, skipping bubbles with a falsy key or value. -/
def kvPairsOf (obj : ExportObject) : List (String × String) :=
  obj.composers.map (fun p => ("composerData:" ++ p.1, p.2)) ++
    obj.bubbles.flatMap (fun e =>
      (e.2.filter (fun b => b.key != "" && b.value != "")).map
        (fun b => (b.key, b.value)))

/-- The additions loop (transfer.js lines 171-177): snapshot records whose
(truthy) composerId is not yet present, deduplicated in order because the
id is added to the seen-set as soon as the record is accepted. -/
def additionsLoop : List Composer → List String → List Composer
  | [], _ => []
  | c :: cs, seen =>
    if c.composerId ≠ "" ∧ c.composerId ∉ seen then
      c :: additionsLoop cs (seen ++ [c.composerId])
    else additionsLoop cs seen

/-- The nonempty composer ids listed in a workspace store's Index, as the
code computes them (`.map(c => c.composerId).filter(Boolean)`). -/
def wsIds (ws : WsFile) : List String :=
  ((wsDoc ws).allComposers.map (fun c => c.composerId)).filter (fun s => s ≠ "")

/-- The data transformation of `importFromObject` (transfer.js lines
113-224): insert all pairs into the global store with
`INSERT OR IGNORE`, then extend the workspace Index with the additions
(writing it back only when there is at least one addition).  Returns the
reported insertion count and the two final stores. -/
def importFromObject (obj : ExportObject) (ws : WsFile) (gl : GlFile) :
    Nat × WsFile × GlFile :=
  let r := insertKVWithCLI gl (kvPairsOf obj)
  let current := wsDoc ws
  let additions := additionsLoop obj.allComposers (wsIds ws)
  let ws' := if additions.length > 0 then
      WsFile.mk (some { current with allComposers := current.allComposers ++ additions })
    else ws
  (r.1, ws', r.2)

/-! ## transfer.js: removal -/

/-- `removeComposersFromWorkspace` (transfer.js lines 322-343): with a
nonempty removal list, re-read the Index, keep every entry that is falsy,
has a falsy composerId, or whose composerId is not in the removal set, and
write the result back; with an empty list, return without touching
anything. -/
def removeComposersFromWorkspace (ws : WsFile) (composerIdsToRemove : List String) :
    WsFile :=
  if composerIdsToRemove.isEmpty then ws
  else
    let current := wsDoc ws
    let nextList := current.allComposers.filter
      (fun c => !(c.composerId != "" && composerIdsToRemove.contains c.composerId))
    ⟨some { current with allComposers := nextList }⟩

/-- The effect of `removeComposersFromWorkspace` on the pair of stores: the
function receives only the workspace store and never touches the global
payload store. -/
def removeOnSystem (st : FS) (composerIdsToRemove : List String) : FS :=
  { st with ws := removeComposersFromWorkspace st.ws composerIdsToRemove }

/-! ## transfer.js: cloneExportObjectForCopy

The identifier generator `randomUUID` is modelled as a function
`uuid : Nat → String` consumed in call order (records first, then bubbles),
and `JSON.parse`/set-`composerId`/`JSON.stringify` on a composer payload is
modelled by a parameter `jsonSet : String → String → Option String`
(`none` when the parse throws, which sends the code down the raw-text
fallback path of lines 291-298). -/

structure CloneRecState where
  cl : List Composer
  m : List (String × String)
  ctr : Nat
  idx : Nat
deriving Repr

/-- The clone of one record (transfer.js lines 242-247): fresh composerId,
timestamps `now + idx`, all other metadata fields copied verbatim by the
spread. -/
def cloneOne (uuid : Nat → String) (now : Nat) (ctr idx : Nat) (c : Composer) : Composer :=
  { c with composerId := uuid ctr, createdAt := now + idx, lastUpdatedAt := now + idx }

/-- One iteration of the composer-cloning loop (transfer.js lines 238-250):
records with a falsy composerId are skipped; otherwise a fresh id is drawn,
recorded in `idMap`, and the clone is appended. -/
def cloneRecStep (uuid : Nat → String) (now : Nat)
    (st : CloneRecState) (c : Composer) : CloneRecState :=
  if c.composerId = "" then st
  else
    { cl := st.cl ++ [cloneOne uuid now st.ctr st.idx c]
      m := objSet st.m c.composerId (uuid st.ctr)
      ctr := st.ctr + 1
      idx := st.idx + 1 }

structure BubInnerState where
  nbs : List Bubble
  bm : List (String × String)
  ctr : Nat
deriving Repr

/-- One iteration of the inner bubble loop (transfer.js lines 257-269). -/
def cloneBubbleStep (uuid : Nat → String) (oldComposerId newComposerId : String)
    (st : BubInnerState) (b : Bubble) : BubInnerState :=
  if b.bubbleId = "" then st
  else
    let nb := uuid st.ctr
    { nbs := st.nbs ++ [⟨"bubbleId:" ++ newComposerId ++ ":" ++ nb,
                         rewriteBubbleValue b.value b.bubbleId nb oldComposerId newComposerId,
                         nb⟩]
      bm := objSet st.bm b.bubbleId nb
      ctr := st.ctr + 1 }

structure CloneBubState where
  bb : List (String × List Bubble)
  bm : List (String × String)
  ctr : Nat
deriving Repr

/-- One iteration of the outer bubble loop (transfer.js lines 253-273):
entries whose old composerId has no (truthy) mapping are skipped; the
per-composer bubble list is recorded only when nonempty. -/
def cloneBubEntryStep (uuid : Nat → String) (idMap : List (String × String))
    (st : CloneBubState) (e : String × List Bubble) : CloneBubState :=
  match idMap.lookup e.1 with
  | none => st
  | some newComposerId =>
    if newComposerId = "" then st
    else
      let inner := e.2.foldl (cloneBubbleStep uuid e.1 newComposerId) ⟨[], st.bm, st.ctr⟩
      { bb := if inner.nbs.length > 0 then objSet st.bb newComposerId inner.nbs else st.bb
        bm := inner.bm
        ctr := inner.ctr }

/-- One iteration of the composer-payload rewriting loop (transfer.js lines
276-299).  On a successful parse the payload's `composerId` field is set to
the new id and the text re-serialized (`jsonSet`), then the old composer id
and every old bubble id are literally substituted; on parse failure the
substitutions are applied to the raw text. -/
def cloneComposerEntryStep (jsonSet : String → String → Option String)
    (idMap bubMap : List (String × String))
    (cm : List (String × String)) (e : String × String) : List (String × String) :=
  match idMap.lookup e.1 with
  | none => cm
  | some newId =>
    if newId = "" then cm
    else
      let base := match jsonSet e.2 newId with
        | some serialized => serialized
        | none => e.2
      let s1 := replaceAllS e.1 newId base
      let s2 := bubMap.foldl (fun s p => replaceAllS p.1 p.2 s) s1
      objSet cm newId s2

/-- The minimal well-formed empty payload document synthesized for records
without payload (transfer.js lines 306-313), with `JSON.stringify`'s
insertion-order key layout. -/
def defaultComposerData (newId : String) : String :=
  "\x7b\"composerId\":\"" ++ newId ++
    "\",\"tabs\":[],\"bubbles\":[],\"currentTab\":null,\"version\":1\x7d"

/-- One iteration of the default-payload loop (transfer.js lines 302-315):
for each `idMap` entry, if the cloned composers map has no truthy value
under the new id, store the default document. -/
def ensureDefaultStep (cm : List (String × String)) (e : String × String) :
    List (String × String) :=
  match cm.lookup e.2 with
  | some v => if v = "" then objSet cm e.2 (defaultComposerData e.2) else cm
  | none => objSet cm e.2 (defaultComposerData e.2)

/-- `cloneExportObjectForCopy` (transfer.js lines 230-317): returns the
cloned snapshot, `idMap` (old composerId → new) and `bubbleIdMap`
(old bubbleId → new). -/
def cloneExportObjectForCopy (uuid : Nat → String) (now : Nat)
    (jsonSet : String → String → Option String) (obj : ExportObject) :
    ExportObject × List (String × String) × List (String × String) :=
  let rs := obj.allComposers.foldl (cloneRecStep uuid now) ⟨[], [], 0, 0⟩
  let bs := obj.bubbles.foldl (cloneBubEntryStep uuid rs.m) ⟨[], [], rs.ctr⟩
  let cm := obj.composers.foldl (cloneComposerEntryStep jsonSet rs.m bs.bm) []
  let cm2 := rs.m.foldl ensureDefaultStep cm
  (⟨rs.cl, cm2, bs.bb⟩, rs.m, bs.bm)

/-! ## importFromObject as an effect protocol

`runImport` retraces the control flow of `importFromObject` (transfer.js
lines 113-224) over an environment of step outcomes, producing the ordered
list of file-system events (backup files created, target stores mutated,
backup files removed) and the overall outcome.  A thrown step reaches the
`catch` block, which keeps the backups.  A failed `insertKVWithCLI` leaves
the global store unmutated because the inserts run inside a single
`BEGIN TRANSACTION … COMMIT`. -/

inductive Tag | ws | gl
deriving DecidableEq, Repr

inductive Ev
  | backupCreated (t : Tag)
  | mutated (t : Tag)
  | backupRemoved (t : Tag)
deriving DecidableEq, Repr

inductive Outcome
  | backupFailed
  | precondFailed
  | insertFailed
  | readFailed
  | updateFailed
  | postcondFailed
  | verifyFailed
  | success
deriving DecidableEq, Repr

structure Env where
  backupWsOk : Bool
  backupGlOk : Bool
  preWsOk : Bool
  preGlOk : Bool
  hasKvPairs : Bool
  insertOk : Bool
  readOk : Bool
  hasAdditions : Bool
  updateOk : Bool
  postWsOk : Bool
  postGlOk : Bool
  verifyOk : Bool
deriving DecidableEq, Repr

def runImport (e : Env) : List Ev × Outcome :=
  if !e.backupWsOk then ([], .backupFailed)
  else if !e.backupGlOk then ([.backupCreated .ws], .backupFailed)
  else
    let t0 : List Ev := [.backupCreated .ws, .backupCreated .gl]
    if !(e.preWsOk && e.preGlOk) then (t0, .precondFailed)
    else if e.hasKvPairs && !e.insertOk then (t0, .insertFailed)
    else
      let t1 := if e.hasKvPairs then t0 ++ [.mutated .gl] else t0
      if !e.readOk then (t1, .readFailed)
      else if e.hasAdditions && !e.updateOk then (t1, .updateFailed)
      else
        let t2 := if e.hasAdditions then t1 ++ [.mutated .ws] else t1
        if !(e.postWsOk && e.postGlOk) then (t2, .postcondFailed)
        else if !e.verifyOk then (t2, .verifyFailed)
        else (t2 ++ [.backupRemoved .ws, .backupRemoved .gl], .success)

/-! ## extension.js: import-file validation -/

/-- A parsed JSON value together with JavaScript's `undefined`, so that
property access on non-objects and missing keys can be modelled. -/
inductive JVal where
  | undefined
  | null
  | bool (b : Bool)
  | num (n : Int)
  | str (s : String)
  | arr (xs : List JVal)
  | obj (fields : List (String × JVal))

def jsTruthy : JVal → Bool
  | .undefined => false
  | .null => false
  | .bool b => b
  | .num n => n != 0
  | .str s => s != ""
  | .arr _ => true
  | .obj _ => true

/-- JavaScript `typeof`; note `typeof null` is the string `"object"`. -/
def jsTypeof : JVal → String
  | .undefined => "undefined"
  | .null => "object"
  | .bool _ => "boolean"
  | .num _ => "number"
  | .str _ => "string"
  | .arr _ => "object"
  | .obj _ => "object"

def jsIsArray : JVal → Bool
  | .arr _ => true
  | _ => false

/-- Property access `v[k]` for the values the guard can reach (the truthy
check short-circuits before `null`/`undefined` access could throw). -/
def getField : JVal → String → JVal
  | .obj fields, k => match fields.lookup k with | some v => v | none => .undefined
  | _, _ => .undefined

/-- The validation guard of `doImport` (extension.js line 256):
`!obj || !Array.isArray(obj.allComposers) || typeof obj.composers !== 'object'`
rejects the file; this is the accepting condition. -/
def validateImportFile (v : JVal) : Bool :=
  jsTruthy v && jsIsArray (getField v "allComposers") &&
    (jsTypeof (getField v "composers") == "object")

/-- An actual JavaScript object-typed value (`typeof` = `"object"`): an
object, an array, or `null`. -/
def isJsObjectLike : JVal → Bool
  | .null => true
  | .arr _ => true
  | .obj _ => true
  | _ => false

/-- A strict object (what "the composers field is an object" means in the
spec's data model: a string-keyed map). -/
def isJsObjectStrict : JVal → Bool
  | .obj _ => true
  | _ => false

/-- The control flow of `doImport` (extension.js lines 243-292) around the
validation guard: a file failing validation is rejected with the
invalid-format error before the store-touching continuation `imp` runs, so
the stores are returned untouched. -/
def doImportModel (imp : FS → Nat × FS) (v : JVal) (fs : FS) :
    Except String (Nat × FS) :=
  if validateImportFile v then .ok (imp fs)
  else .error "Invalid export file format."

/-! ## Association-list lemmas for the JS-object model -/

theorem lookup_map_replace {β : Type} (m : List (String × β)) (k : String) (v : β)
    (h : (m.lookup k).isSome) :
    (m.map (fun p => if p.1 = k then (k, v) else p)).lookup k = some v := by
  induction m with
  | nil => simp at h
  | cons a m ih =>
    obtain ⟨a1, a2⟩ := a
    by_cases hk : a1 = k
    · subst hk
      simp
    · have hbeq : (k == a1) = false := beq_eq_false_iff_ne.mpr (Ne.symm hk)
      have hif : (if (a1, a2).1 = k then (k, v) else (a1, a2)) = (a1, a2) := by simp [hk]
      have hm : (m.lookup k).isSome := by
        have h2 := h
        simp only [List.lookup_cons, hbeq] at h2
        exact h2
      simp only [List.map_cons, hif, List.lookup_cons, hbeq]
      exact ih hm

theorem lookup_map_replace_isSome {β : Type} (m : List (String × β)) (k k' : String) (v : β)
    (h : (m.lookup k').isSome) :
    ((m.map (fun p => if p.1 = k then (k, v) else p)).lookup k').isSome := by
  induction m with
  | nil => simp at h
  | cons a m ih =>
    obtain ⟨a1, a2⟩ := a
    by_cases hk : a1 = k
    · subst hk
      by_cases hk' : k' = a1
      · subst hk'
        simp
      · have hbeq : (k' == a1) = false := beq_eq_false_iff_ne.mpr hk'
        have hm : (m.lookup k').isSome := by
          have h2 := h
          simp only [List.lookup_cons, hbeq] at h2
          exact h2
        simp only [List.map_cons, List.lookup_cons, hbeq]
        simp only [show ((a1, a2).1 = a1) = True by simp, if_true, List.lookup_cons, hbeq]
        exact ih hm
    · have hif : (if (a1, a2).1 = k then (k, v) else (a1, a2)) = (a1, a2) := by simp [hk]
      by_cases hk' : k' = a1
      · subst hk'
        simp [hif, List.lookup_cons]
      · have hbeq : (k' == a1) = false := beq_eq_false_iff_ne.mpr hk'
        have hm : (m.lookup k').isSome := by
          have h2 := h
          simp only [List.lookup_cons, hbeq] at h2
          exact h2
        simp only [List.map_cons, hif, List.lookup_cons, hbeq]
        exact ih hm

theorem objSet_lookup_self {β : Type} (m : List (String × β)) (k : String) (v : β) :
    (objSet m k v).lookup k = some v := by
  unfold objSet
  by_cases h : (m.lookup k).isSome
  · rw [if_pos h]
    exact lookup_map_replace m k v h
  · rw [if_neg h]
    rw [List.lookup_append]
    have : m.lookup k = none := Option.not_isSome_iff_eq_none.mp h
    simp [this]

theorem objSet_lookup_isSome_mono {β : Type} (m : List (String × β)) (k k' : String) (v : β)
    (h : (m.lookup k').isSome) :
    ((objSet m k v).lookup k').isSome := by
  unfold objSet
  by_cases hp : (m.lookup k).isSome
  · rw [if_pos hp]
    exact lookup_map_replace_isSome m k k' v h
  · rw [if_neg hp]
    rw [List.lookup_append]
    obtain ⟨w, hw⟩ := Option.isSome_iff_exists.mp h
    simp [hw]

theorem objSet_of_lookup_none {β : Type} (m : List (String × β)) (k : String) (v : β)
    (h : m.lookup k = none) :
    objSet m k v = m ++ [(k, v)] := by
  unfold objSet
  rw [if_neg (by simp [h])]

/-! ## insertOrIgnore lemmas (C1) -/

theorem insertOrIgnore_lookup_some (kv : List (String × String)) (p : String × String)
    {k : String} {v : String} (h : kv.lookup k = some v) :
    (insertOrIgnore kv p).lookup k = some v := by
  unfold insertOrIgnore
  by_cases hp : (kv.lookup p.1).isSome
  · rw [if_pos hp]; exact h
  · rw [if_neg hp]
    rw [List.lookup_append, h]
    rfl

theorem foldl_insertOrIgnore_lookup_some (pairs : List (String × String))
    (kv : List (String × String)) {k v : String} (h : kv.lookup k = some v) :
    (pairs.foldl insertOrIgnore kv).lookup k = some v := by
  induction pairs generalizing kv with
  | nil => exact h
  | cons p pairs ih =>
    exact ih (insertOrIgnore kv p) (insertOrIgnore_lookup_some kv p h)

theorem foldl_insertOrIgnore_isSome (pairs : List (String × String))
    (kv : List (String × String)) {k : String} (h : (kv.lookup k).isSome) :
    ((pairs.foldl insertOrIgnore kv).lookup k).isSome := by
  obtain ⟨v, hv⟩ := Option.isSome_iff_exists.mp h
  exact Option.isSome_iff_exists.mpr ⟨v, foldl_insertOrIgnore_lookup_some pairs kv hv⟩

theorem foldl_insertOrIgnore_mem (pairs : List (String × String))
    (kv : List (String × String)) (p : String × String) (hp : p ∈ pairs) :
    ((pairs.foldl insertOrIgnore kv).lookup p.1).isSome := by
  induction pairs generalizing kv with
  | nil => simp at hp
  | cons q pairs ih =>
    rcases List.mem_cons.mp hp with rfl | hmem
    · rw [List.foldl_cons]
      apply foldl_insertOrIgnore_isSome
      unfold insertOrIgnore
      by_cases hq : (kv.lookup p.1).isSome
      · rwa [if_pos hq]
      · rw [if_neg hq, List.lookup_append]
        have : kv.lookup p.1 = none := Option.not_isSome_iff_eq_none.mp hq
        simp [this]
    · rw [List.foldl_cons]
      exact ih (insertOrIgnore kv q) hmem

theorem foldl_insertOrIgnore_of_all_present (pairs : List (String × String))
    (kv : List (String × String)) (h : ∀ p ∈ pairs, (kv.lookup p.1).isSome) :
    pairs.foldl insertOrIgnore kv = kv := by
  induction pairs with
  | nil => rfl
  | cons p pairs ih =>
    rw [List.foldl_cons]
    have hstep : insertOrIgnore kv p = kv := by
      unfold insertOrIgnore
      rw [if_pos (h p (List.mem_cons_self p pairs))]
    rw [hstep]
    exact ih (fun q hq => h q (List.mem_cons_of_mem p hq))

/-! ## C10: export mutates neither source store -/

/-- C10. `buildExportObject` never mutates either source store: both
databases are opened read-only as in-memory copies
(`openSqliteReadOnly`), every query is a read against the copy, and
`closeReadOnly` discards the handles without a write-back, so the stores
after the export equal the stores before it, and the export result is a
pure function of their contents. -/
theorem buildExportObject_readonly (fs : FS) (sel : Option (List String)) :
    (buildExportObjectFS fs sel).2 = fs ∧
    (buildExportObjectFS fs sel).1 = buildExportObject fs.ws fs.gl sel :=
  ⟨rfl, rfl⟩

/-! ## C8: removal touches only the Index -/

/-- C8. `removeComposersFromWorkspace` changes only the Index: the
resulting Index is the prior Index with exactly the entries whose
composerId lies in the removal set filtered out (all other fields of the
Index document preserved), and the global payload store is untouched.  The
hypothesis `"" ∉ ids` reflects that entries with a falsy composerId have no
record id: the code always keeps them. -/
theorem removeComposers_frame (st : FS) (ids : List String) (doc : IndexDoc)
    (hdoc : st.ws.composerData = some doc) (hne : "" ∉ ids) :
    (removeOnSystem st ids).gl = st.gl ∧
    (removeOnSystem st ids).ws.composerData =
      some { doc with allComposers :=
        doc.allComposers.filter (fun c => !(ids.contains c.composerId)) } := by
  refine ⟨rfl, ?_⟩
  show (removeComposersFromWorkspace st.ws ids).composerData = _
  unfold removeComposersFromWorkspace
  by_cases hids : ids.isEmpty
  · rw [if_pos hids]
    have hidsnil : ids = [] := List.isEmpty_iff.mp hids
    subst hidsnil
    simp [hdoc]
  · rw [if_neg hids]
    have hcur : wsDoc st.ws = doc := by unfold wsDoc; rw [hdoc]; rfl
    rw [hcur]
    show some (IndexDoc.mk (doc.allComposers.filter
        (fun c => !(c.composerId != "" && ids.contains c.composerId))) doc.rest) = _
    rw [Option.some_inj, IndexDoc.mk.injEq]
    refine ⟨?_, rfl⟩
    apply List.filter_congr
    intro c _
    by_cases hc : c.composerId = ""
    · have hco : ids.contains c.composerId = false := by
        rw [hc]
        simpa using hne
      rw [hco, hc]
      rfl
    · have hc2 : (c.composerId != "") = true := bne_iff_ne.mpr hc
      rw [hc2, Bool.true_and]

theorem removeComposers_frame_witness :
    (removeOnSystem ⟨⟨some ⟨[⟨"a", 0, 0, "m"⟩, ⟨"b", 1, 1, "m"⟩], "r"⟩⟩, ⟨[("k", "v")]⟩⟩ ["a"]).gl
        = ⟨[("k", "v")]⟩ ∧
    (removeOnSystem ⟨⟨some ⟨[⟨"a", 0, 0, "m"⟩, ⟨"b", 1, 1, "m"⟩], "r"⟩⟩, ⟨[("k", "v")]⟩⟩ ["a"]).ws.composerData
        = some { allComposers := List.filter (fun c => !(List.contains ["a"] c.composerId))
                   [⟨"a", 0, 0, "m"⟩, ⟨"b", 1, 1, "m"⟩], rest := "r" } :=
  removeComposers_frame ⟨⟨some ⟨[⟨"a", 0, 0, "m"⟩, ⟨"b", 1, 1, "m"⟩], "r"⟩⟩, ⟨[("k", "v")]⟩⟩
    ["a"] ⟨[⟨"a", 0, 0, "m"⟩, ⟨"b", 1, 1, "m"⟩], "r"⟩ rfl (by decide)

/-! ## C6: import-file validation -/

/-- The concrete import file `{"allComposers": [], "composers": null}`. -/
def c6File : JVal := .obj [("allComposers", .arr []), ("composers", .null)]

/-- C6 counterexample.  A file whose `composers` field is `null` passes the
validation guard (JavaScript `typeof null` is `"object"`), even though
`null` is not an object, so "accepts only if the composers field is an
object" fails as stated. -/
theorem doImport_accepts_null_composers :
    validateImportFile c6File = true ∧
      isJsObjectStrict (getField c6File "composers") = false :=
  ⟨rfl, rfl⟩

theorem jsTypeof_object_iff (w : JVal) :
    (jsTypeof w == "object") = isJsObjectLike w := by
  cases w <;> rfl

/-- C6 amended.  `doImport` accepts a parsed file exactly when its
`allComposers` field is an array and its `composers` field has JavaScript
type `"object"` — an object, an array, or `null` — and any file failing
this validation is rejected with the invalid-format error before any store
is read or written (the continuation receiving the stores never runs, so
they are untouched). -/
theorem doImport_validation (v : JVal) :
    (validateImportFile v = true ↔
      (jsIsArray (getField v "allComposers") = true ∧
        isJsObjectLike (getField v "composers") = true)) ∧
    (∀ (imp : FS → Nat × FS) (fs : FS), validateImportFile v = false →
      doImportModel imp v fs = .error "Invalid export file format.") := by
  constructor
  · constructor
    · intro h
      unfold validateImportFile at h
      simp only [Bool.and_eq_true] at h
      exact ⟨h.1.2, by rw [← jsTypeof_object_iff]; exact h.2⟩
    · rintro ⟨harr, hobj⟩
      have htr : jsTruthy v = true := by
        cases v <;> first
          | rfl
          | (exfalso; simp [getField, jsIsArray] at harr)
      unfold validateImportFile
      rw [htr, harr, jsTypeof_object_iff, hobj]
      rfl
  · intro imp fs h
    unfold doImportModel
    rw [if_neg (by simp [h])]

theorem doImport_validation_witness :
    (validateImportFile (JVal.obj [("allComposers", JVal.arr []), ("composers", JVal.obj [])]) = true ↔
      (jsIsArray (getField (JVal.obj [("allComposers", JVal.arr []), ("composers", JVal.obj [])]) "allComposers") = true ∧
        isJsObjectLike (getField (JVal.obj [("allComposers", JVal.arr []), ("composers", JVal.obj [])]) "composers") = true)) ∧
    (∀ (imp : FS → Nat × FS) (fs : FS),
      validateImportFile (JVal.obj [("allComposers", JVal.arr []), ("composers", JVal.obj [])]) = false →
      doImportModel imp (JVal.obj [("allComposers", JVal.arr []), ("composers", JVal.obj [])]) fs =
        .error "Invalid export file format.") :=
  doImport_validation (JVal.obj [("allComposers", JVal.arr []), ("composers", JVal.obj [])])

/-! ## C9: integrity gates pass vacuously without the sqlite3 CLI -/

/-- C9. When the sqlite3 CLI cannot be found, `checkIntegrity` reports the
store as healthy (`true`) instead of failing; consequently, when the four
integrity gates of `importFromObject` take their values from
`checkIntegrity` with no CLI available, the run can never abort with a
pre- or post-condition integrity failure. -/
theorem checkIntegrity_vacuous (env : Env) (o1 o2 o3 o4 : Option String)
    (h1 : env.preWsOk = checkIntegrity none o1)
    (h2 : env.preGlOk = checkIntegrity none o2)
    (h3 : env.postWsOk = checkIntegrity none o3)
    (h4 : env.postGlOk = checkIntegrity none o4) :
    checkIntegrity none o1 = true ∧
    (runImport env).2 ≠ Outcome.precondFailed ∧
    (runImport env).2 ≠ Outcome.postcondFailed := by
  refine ⟨rfl, ?_⟩
  obtain ⟨b1, b2, b3, b4, b5, b6, b7, b8, b9, b10, b11, b12⟩ := env
  simp only at h1 h2 h3 h4
  rw [show checkIntegrity none o1 = true from rfl] at h1
  rw [show checkIntegrity none o2 = true from rfl] at h2
  rw [show checkIntegrity none o3 = true from rfl] at h3
  rw [show checkIntegrity none o4 = true from rfl] at h4
  subst h1 h2 h3 h4
  revert b1 b2 b5 b6 b7 b8 b9 b12
  decide

theorem checkIntegrity_vacuous_witness :
    checkIntegrity none none = true ∧
    (runImport ⟨true, true, true, true, true, true, true, true, true, true, true, true⟩).2
        ≠ Outcome.precondFailed ∧
    (runImport ⟨true, true, true, true, true, true, true, true, true, true, true, true⟩).2
        ≠ Outcome.postcondFailed :=
  checkIntegrity_vacuous ⟨true, true, true, true, true, true, true, true, true, true, true, true⟩
    none none none none rfl rfl rfl rfl

/-! ## C5: backup discipline of importFromObject -/

/-- Failed runs that stopped at backup creation or at the pre-merge
integrity gate performed no mutation. -/
def backupNoMutationOnEarlyFailure (env : Env) : Prop :=
  (runImport env).2 = Outcome.backupFailed ∨ (runImport env).2 = Outcome.precondFailed →
    Ev.mutated Tag.ws ∉ (runImport env).1 ∧ Ev.mutated Tag.gl ∉ (runImport env).1

instance (env : Env) : Decidable (backupNoMutationOnEarlyFailure env) := by
  unfold backupNoMutationOnEarlyFailure; infer_instance

/-- Every mutation event is preceded in the trace by the creation of both
backups. -/
def backupPrecedesMutation (env : Env) : Prop :=
  ∀ i, ∀ h : i < (runImport env).1.length,
    ((runImport env).1.get ⟨i, h⟩ = Ev.mutated Tag.ws ∨
      (runImport env).1.get ⟨i, h⟩ = Ev.mutated Tag.gl) →
    Ev.backupCreated Tag.ws ∈ (runImport env).1.take i ∧
    Ev.backupCreated Tag.gl ∈ (runImport env).1.take i

instance (env : Env) : Decidable (backupPrecedesMutation env) := by
  unfold backupPrecedesMutation; infer_instance

/-- A backup is removed only in a successful run. -/
def backupRemovedOnlyOnSuccess (env : Env) : Prop :=
  Ev.backupRemoved Tag.ws ∈ (runImport env).1 ∨
      Ev.backupRemoved Tag.gl ∈ (runImport env).1 →
    (runImport env).2 = Outcome.success

instance (env : Env) : Decidable (backupRemovedOnlyOnSuccess env) := by
  unfold backupRemovedOnlyOnSuccess; infer_instance

/-- In every failed run that mutated a store, both backups were created and
neither was removed. -/
def backupsSurviveFailure (env : Env) : Prop :=
  (runImport env).2 ≠ Outcome.success →
    (Ev.mutated Tag.ws ∈ (runImport env).1 ∨ Ev.mutated Tag.gl ∈ (runImport env).1) →
    Ev.backupCreated Tag.ws ∈ (runImport env).1 ∧
    Ev.backupCreated Tag.gl ∈ (runImport env).1 ∧
    Ev.backupRemoved Tag.ws ∉ (runImport env).1 ∧
    Ev.backupRemoved Tag.gl ∉ (runImport env).1

instance (env : Env) : Decidable (backupsSurviveFailure env) := by
  unfold backupsSurviveFailure; infer_instance

/-- The backup discipline that C5 asserts of a run of `importFromObject`. -/
def backupDiscipline (env : Env) : Prop :=
  backupNoMutationOnEarlyFailure env ∧ backupPrecedesMutation env ∧
    backupRemovedOnlyOnSuccess env ∧ backupsSurviveFailure env

instance (env : Env) : Decidable (backupDiscipline env) := by
  unfold backupDiscipline; infer_instance

/-- C5. In every execution of `importFromObject`: a failed run that stopped
at backup creation or at the pre-merge integrity gate performed no
mutation; every mutation event is preceded in the trace by the creation of
both backups; a backup is removed only in a successful run; and in every
failed run that did mutate a store, both backup files were created and
neither was removed, so both still exist afterwards. -/
theorem importFromObject_backup_protocol (env : Env) : backupDiscipline env := by
  have h : ∀ (b1 b2 b3 b4 b5 b6 b7 b8 b9 b10 b11 b12 : Bool),
      decide (backupDiscipline ⟨b1, b2, b3, b4, b5, b6, b7, b8, b9, b10, b11, b12⟩) = true := by
    decide
  obtain ⟨b1, b2, b3, b4, b5, b6, b7, b8, b9, b10, b11, b12⟩ := env
  exact of_decide_eq_true (h b1 b2 b3 b4 b5 b6 b7 b8 b9 b10 b11 b12)

/-! ## C4: export selection filter -/

def c4Doc : IndexDoc := ⟨[⟨"a", 0, 0, ""⟩], ""⟩

/-- C4 counterexample.  With the empty selection list, `buildExportObject`
skips the filter entirely (`selectedComposerIds.length > 0` guard) and
returns every Index record, while the claim demands the records with
`recordId ∈ [] ∩ IndexIds = ∅`. -/
theorem buildExportObject_empty_selection :
    (buildExportObject ⟨some c4Doc⟩ ⟨[]⟩ (some [])).allComposers = [⟨"a", 0, 0, ""⟩] ∧
    c4Doc.allComposers.filter (fun c => List.contains ([] : List String) c.composerId) = [] :=
  ⟨rfl, rfl⟩

/-- C4 amended.  For a nonempty selection list, `buildExportObject` returns
exactly the Index records whose composerId is in the selection — never
more, never fewer; for the empty selection list the filter is skipped and
every Index record is returned. -/
theorem buildExportObject_selection (ws : WsFile) (gl : GlFile) (ids : List String)
    (doc : IndexDoc) (hdoc : ws.composerData = some doc) :
    (ids ≠ [] →
      (buildExportObject ws gl (some ids)).allComposers =
        doc.allComposers.filter (fun c => ids.contains c.composerId)) ∧
    (ids = [] →
      (buildExportObject ws gl (some ids)).allComposers = doc.allComposers) := by
  constructor
  · intro hne
    unfold buildExportObject
    rw [hdoc]
    have hlen : ids.length > 0 := List.length_pos.mpr hne
    simp [hlen]
  · rintro rfl
    unfold buildExportObject
    rw [hdoc]
    simp

/-! ## Fresh-identifier map characterization (C2, C7)

`freshMapSpec uuid ids ctr` describes the old-to-new identifier map that
the cloning loops build: one entry per accepted (nonempty) old id, with
consecutive generator outputs as values. -/

theorem filter_ne_cons_pos (i : String) (is : List String) (h : i ≠ "") :
    (i :: is).filter (fun s => s ≠ "") = i :: is.filter (fun s => s ≠ "") := by
  simp [List.filter_cons, h]

theorem filter_ne_cons_neg (i : String) (is : List String) (h : i = "") :
    (i :: is).filter (fun s => s ≠ "") = is.filter (fun s => s ≠ "") := by
  simp [List.filter_cons, h]

def freshMapSpec (uuid : Nat → String) : List String → Nat → List (String × String)
  | [], _ => []
  | i :: is, ctr =>
    if i = "" then freshMapSpec uuid is ctr
    else (i, uuid ctr) :: freshMapSpec uuid is (ctr + 1)

theorem freshMapSpec_cons_pos (uuid : Nat → String) (i : String) (is : List String)
    (ctr : Nat) (h : i ≠ "") :
    freshMapSpec uuid (i :: is) ctr = (i, uuid ctr) :: freshMapSpec uuid is (ctr + 1) := by
  simp [freshMapSpec, h]

theorem freshMapSpec_cons_neg (uuid : Nat → String) (i : String) (is : List String)
    (ctr : Nat) (h : i = "") :
    freshMapSpec uuid (i :: is) ctr = freshMapSpec uuid is ctr := by
  simp [freshMapSpec, h]

/-- Number of accepted (nonempty) identifiers. -/
def countAccepted (is : List String) : Nat := (is.filter (fun s => s ≠ "")).length

theorem countAccepted_cons_pos {i : String} (is : List String) (h : i ≠ "") :
    countAccepted (i :: is) = countAccepted is + 1 := by
  unfold countAccepted
  rw [filter_ne_cons_pos _ _ h, List.length_cons]

theorem countAccepted_cons_neg {i : String} (is : List String) (h : i = "") :
    countAccepted (i :: is) = countAccepted is := by
  unfold countAccepted
  rw [filter_ne_cons_neg _ _ h]

theorem countAccepted_append (l₁ l₂ : List String) :
    countAccepted (l₁ ++ l₂) = countAccepted l₁ + countAccepted l₂ := by
  unfold countAccepted
  rw [List.filter_append, List.length_append]

theorem countAccepted_of_all_ne (l : List String) (h : ∀ i ∈ l, i ≠ "") :
    countAccepted l = l.length := by
  unfold countAccepted
  rw [List.filter_eq_self.mpr (fun i hi => decide_eq_true (h i hi))]

theorem freshMapSpec_length (uuid : Nat → String) :
    ∀ (l : List String) (ctr : Nat),
    (freshMapSpec uuid l ctr).length = countAccepted l := by
  intro l
  induction l with
  | nil => intro ctr; rfl
  | cons i is ih =>
    intro ctr
    unfold freshMapSpec
    by_cases h : i = ""
    · rw [if_pos h, countAccepted_cons_neg is h]
      exact ih ctr
    · rw [if_neg h, countAccepted_cons_pos is h, List.length_cons, ih (ctr + 1)]

theorem freshMapSpec_keys (uuid : Nat → String) :
    ∀ (l : List String) (ctr : Nat),
    (freshMapSpec uuid l ctr).map Prod.fst = l.filter (fun s => s ≠ "") := by
  intro l
  induction l with
  | nil => intro ctr; rfl
  | cons i is ih =>
    intro ctr
    unfold freshMapSpec
    by_cases h : i = ""
    · rw [if_pos h, filter_ne_cons_neg _ _ h]
      exact ih ctr
    · rw [if_neg h, filter_ne_cons_pos _ _ h, List.map_cons, ih (ctr + 1)]

theorem freshMapSpec_mem (uuid : Nat → String) :
    ∀ (l : List String) (ctr : Nat) (p : String × String), p ∈ freshMapSpec uuid l ctr →
    ∃ j, ctr ≤ j ∧ j < ctr + countAccepted l ∧ p.2 = uuid j ∧
      p.1 ∈ l.filter (fun s => s ≠ "") := by
  intro l
  induction l with
  | nil => intro ctr p hp; simp [freshMapSpec] at hp
  | cons i is ih =>
    intro ctr p hp
    unfold freshMapSpec at hp
    by_cases h : i = ""
    · rw [if_pos h] at hp
      obtain ⟨j, h1, h2, h3, h4⟩ := ih ctr p hp
      rw [countAccepted_cons_neg is h]
      exact ⟨j, h1, h2, h3, by
        rw [filter_ne_cons_neg _ _ h]
        exact h4⟩
    · rw [if_neg h] at hp
      rw [countAccepted_cons_pos is h]
      rcases List.mem_cons.mp hp with rfl | hp'
      · exact ⟨ctr, le_rfl, by omega, rfl, by
          rw [filter_ne_cons_pos _ _ h]
          exact List.mem_cons_self _ _⟩
      · obtain ⟨j, h1, h2, h3, h4⟩ := ih (ctr + 1) p hp'
        exact ⟨j, by omega, by omega, h3, by
          rw [filter_ne_cons_pos _ _ h]
          exact List.mem_cons_of_mem _ h4⟩

theorem freshMapSpec_inj (uuid : Nat → String) (N : Nat)
    (hinj : ∀ i, i < N → ∀ j, j < N → uuid i = uuid j → i = j) :
    ∀ (l : List String) (ctr : Nat), ctr + countAccepted l ≤ N →
    ∀ p ∈ freshMapSpec uuid l ctr, ∀ q ∈ freshMapSpec uuid l ctr,
      p.2 = q.2 → p.1 = q.1 := by
  intro l
  induction l with
  | nil => intro ctr _ p hp; simp [freshMapSpec] at hp
  | cons i is ih =>
    intro ctr hub p hp q hq hpq
    unfold freshMapSpec at hp hq
    by_cases h : i = ""
    · rw [if_pos h] at hp hq
      rw [countAccepted_cons_neg is h] at hub
      exact ih ctr hub p hp q hq hpq
    · rw [if_neg h] at hp hq
      rw [countAccepted_cons_pos is h] at hub
      have hub' : ctr + 1 + countAccepted is ≤ N := by omega
      rcases List.mem_cons.mp hp with rfl | hp' <;>
        rcases List.mem_cons.mp hq with hq1 | hq'
      · rw [hq1]
      · obtain ⟨j, hj1, hj2, hj3, -⟩ := freshMapSpec_mem uuid is (ctr + 1) q hq'
        have : ctr = j := hinj ctr (by omega) j (by omega) (by rw [← hj3]; exact hpq)
        omega
      · obtain ⟨j, hj1, hj2, hj3, -⟩ := freshMapSpec_mem uuid is (ctr + 1) p hp'
        rw [hq1] at hpq
        have : j = ctr := hinj j (by omega) ctr (by omega) (by rw [← hj3, hpq])
        omega
      · exact ih (ctr + 1) hub' p hp' q hq' hpq

theorem freshMapSpec_lookup (uuid : Nat → String) :
    ∀ (l : List String) (ctr : Nat) (i : String), i ∈ l → i ≠ "" →
    ∃ j, ctr ≤ j ∧ j < ctr + countAccepted l ∧
      (freshMapSpec uuid l ctr).lookup i = some (uuid j) := by
  intro l
  induction l with
  | nil => intro ctr i hi; simp at hi
  | cons a is ih =>
    intro ctr i hi hne
    unfold freshMapSpec
    by_cases h : a = ""
    · rw [if_pos h, countAccepted_cons_neg is h]
      have hi' : i ∈ is := by
        rcases List.mem_cons.mp hi with rfl | hi'
        · exact absurd h hne
        · exact hi'
      exact ih ctr i hi' hne
    · rw [if_neg h, countAccepted_cons_pos is h]
      by_cases hia : i = a
      · subst hia
        exact ⟨ctr, le_rfl, by omega, by simp⟩
      · have hi' : i ∈ is := by
          rcases List.mem_cons.mp hi with rfl | hi'
          · exact absurd rfl hia
          · exact hi'
        obtain ⟨j, h1, h2, h3⟩ := ih (ctr + 1) i hi' hne
        refine ⟨j, by omega, by omega, ?_⟩
        rw [List.lookup_cons]
        have : (i == a) = false := beq_eq_false_iff_ne.mpr hia
        rw [this]
        exact h3

theorem freshMapSpec_append (uuid : Nat → String) :
    ∀ (l₁ l₂ : List String) (ctr : Nat),
    freshMapSpec uuid (l₁ ++ l₂) ctr =
      freshMapSpec uuid l₁ ctr ++ freshMapSpec uuid l₂ (ctr + countAccepted l₁) := by
  intro l₁
  induction l₁ with
  | nil => intro l₂ ctr; rfl
  | cons i is ih =>
    intro l₂ ctr
    rw [List.cons_append]
    by_cases h : i = ""
    · rw [freshMapSpec_cons_neg _ _ _ _ h, freshMapSpec_cons_neg _ _ _ _ h,
        countAccepted_cons_neg is h]
      exact ih l₂ ctr
    · rw [freshMapSpec_cons_pos _ _ _ _ h, freshMapSpec_cons_pos _ _ _ _ h,
        countAccepted_cons_pos is h, List.cons_append, ih l₂ (ctr + 1)]
      have harith : ctr + (countAccepted is + 1) = ctr + 1 + countAccepted is := by omega
      rw [harith]

theorem freshMapSpec_lookup_none (uuid : Nat → String) (l : List String) (ctr : Nat)
    (i : String) (hni : i ∉ l.filter (fun s => s ≠ "")) :
    (freshMapSpec uuid l ctr).lookup i = none := by
  rw [List.lookup_eq_none_iff]
  intro p hp
  obtain ⟨j, -, -, -, h4⟩ := freshMapSpec_mem uuid l ctr p hp
  exact bne_iff_ne.mpr (fun he => hni (he ▸ h4))

/-! ## Characterization of the clone folds (C2, C7) -/

/-- The cloned record list produced by the composer-cloning loop. -/
def cloneRecsSpec (uuid : Nat → String) (now : Nat) :
    List Composer → Nat → Nat → List Composer
  | [], _, _ => []
  | c :: cs, ctr, idx =>
    if c.composerId = "" then cloneRecsSpec uuid now cs ctr idx
    else cloneOne uuid now ctr idx c :: cloneRecsSpec uuid now cs (ctr + 1) (idx + 1)

theorem cloneRecsSpec_cons_pos (uuid : Nat → String) (now : Nat) (c : Composer)
    (cs : List Composer) (ctr idx : Nat) (h : c.composerId ≠ "") :
    cloneRecsSpec uuid now (c :: cs) ctr idx =
      cloneOne uuid now ctr idx c :: cloneRecsSpec uuid now cs (ctr + 1) (idx + 1) := by
  simp [cloneRecsSpec, h]

theorem cloneRecsSpec_cons_neg (uuid : Nat → String) (now : Nat) (c : Composer)
    (cs : List Composer) (ctr idx : Nat) (h : c.composerId = "") :
    cloneRecsSpec uuid now (c :: cs) ctr idx = cloneRecsSpec uuid now cs ctr idx := by
  simp [cloneRecsSpec, h]

theorem cloneRecs_foldl (uuid : Nat → String) (now : Nat) :
    ∀ (recs : List Composer) (st : CloneRecState),
    ((recs.map (fun c => c.composerId)).filter (fun s => s ≠ "")).Nodup →
    (∀ i ∈ (recs.map (fun c => c.composerId)).filter (fun s => s ≠ ""),
      st.m.lookup i = none) →
    recs.foldl (cloneRecStep uuid now) st =
      ⟨st.cl ++ cloneRecsSpec uuid now recs st.ctr st.idx,
       st.m ++ freshMapSpec uuid (recs.map (fun c => c.composerId)) st.ctr,
       st.ctr + countAccepted (recs.map (fun c => c.composerId)),
       st.idx + countAccepted (recs.map (fun c => c.composerId))⟩ := by
  intro recs
  induction recs with
  | nil =>
    intro st _ _
    simp [cloneRecsSpec, freshMapSpec, countAccepted]
  | cons c cs ih =>
    intro st hnd hnone
    rw [List.foldl_cons]
    by_cases hc : c.composerId = ""
    · have hstep : cloneRecStep uuid now st c = st := by
        unfold cloneRecStep
        rw [if_pos hc]
      rw [hstep, cloneRecsSpec_cons_neg _ _ _ _ _ _ hc, List.map_cons,
        freshMapSpec_cons_neg _ _ _ _ hc, countAccepted_cons_neg _ hc]
      apply ih st
      · rw [List.map_cons, filter_ne_cons_neg _ _ hc] at hnd
        exact hnd
      · intro i hi
        apply hnone
        rw [List.map_cons, filter_ne_cons_neg _ _ hc]
        exact hi
    · have hmem : c.composerId ∈
          ((c :: cs).map (fun c => c.composerId)).filter (fun s => s ≠ "") := by
        rw [List.map_cons, filter_ne_cons_pos _ _ hc]
        exact List.mem_cons_self _ _
      have hmnone : st.m.lookup c.composerId = none := hnone _ hmem
      have hstep : cloneRecStep uuid now st c =
          ⟨st.cl ++ [cloneOne uuid now st.ctr st.idx c],
           st.m ++ [(c.composerId, uuid st.ctr)], st.ctr + 1, st.idx + 1⟩ := by
        unfold cloneRecStep
        rw [if_neg hc, objSet_of_lookup_none _ _ _ hmnone]
      rw [hstep]
      have hndcs : ((cs.map (fun c => c.composerId)).filter (fun s => s ≠ "")).Nodup := by
        rw [List.map_cons, filter_ne_cons_pos _ _ hc] at hnd
        exact (List.nodup_cons.mp hnd).2
      have hhead : c.composerId ∉
          (cs.map (fun c => c.composerId)).filter (fun s => s ≠ "") := by
        rw [List.map_cons, filter_ne_cons_pos _ _ hc] at hnd
        exact (List.nodup_cons.mp hnd).1
      have ihres := ih ⟨st.cl ++ [cloneOne uuid now st.ctr st.idx c],
          st.m ++ [(c.composerId, uuid st.ctr)], st.ctr + 1, st.idx + 1⟩ hndcs (by
        intro i hi
        show (st.m ++ [(c.composerId, uuid st.ctr)]).lookup i = none
        rw [List.lookup_append]
        rw [hnone i (by
          rw [List.map_cons, filter_ne_cons_pos _ _ hc]
          exact List.mem_cons_of_mem _ hi)]
        have hine : i ≠ c.composerId := fun he => hhead (he ▸ hi)
        simp [List.lookup_cons, beq_eq_false_iff_ne.mpr hine])
      rw [ihres, cloneRecsSpec_cons_pos _ _ _ _ _ _ hc, List.map_cons,
        freshMapSpec_cons_pos _ _ _ _ hc, countAccepted_cons_pos _ hc]
      simp only [CloneRecState.mk.injEq]
      refine ⟨?_, ?_, by omega, by omega⟩
      · rw [List.append_assoc]
        rfl
      · rw [List.append_assoc]
        rfl

/-- Every cloned record's new composerId is a value of the identifier map. -/
theorem cloneRecsSpec_ids (uuid : Nat → String) (now : Nat) :
    ∀ (recs : List Composer) (ctr idx : Nat),
    ∀ c ∈ cloneRecsSpec uuid now recs ctr idx,
      ∃ o, (o, c.composerId) ∈ freshMapSpec uuid (recs.map (fun c => c.composerId)) ctr := by
  intro recs
  induction recs with
  | nil => intro ctr idx c hc; simp [cloneRecsSpec] at hc
  | cons d cs ih =>
    intro ctr idx c hc
    rw [List.map_cons]
    by_cases hd : d.composerId = ""
    · rw [cloneRecsSpec_cons_neg _ _ _ _ _ _ hd] at hc
      rw [freshMapSpec_cons_neg _ _ _ _ hd]
      exact ih ctr idx c hc
    · rw [cloneRecsSpec_cons_pos _ _ _ _ _ _ hd] at hc
      rw [freshMapSpec_cons_pos _ _ _ _ hd]
      rcases List.mem_cons.mp hc with rfl | hc2
      · exact ⟨d.composerId, List.mem_cons_self _ _⟩
      · obtain ⟨o, ho⟩ := ih (ctr + 1) (idx + 1) c hc2
        exact ⟨o, List.mem_cons_of_mem _ ho⟩

/-- All old fragment ids listed in a snapshot's `bubbles` map, in iteration
order. -/
def allBubbleIds (entries : List (String × List Bubble)) : List String :=
  entries.flatMap (fun e => e.2.map (fun b => b.bubbleId))

theorem allBubbleIds_cons (e : String × List Bubble) (es : List (String × List Bubble)) :
    allBubbleIds (e :: es) = e.2.map (fun b => b.bubbleId) ++ allBubbleIds es := by
  simp [allBubbleIds]

theorem cloneBubInner_foldl (uuid : Nat → String) (o n : String) :
    ∀ (bs : List Bubble) (st : BubInnerState),
    ((bs.map (fun b => b.bubbleId)).filter (fun s => s ≠ "")).Nodup →
    (∀ i ∈ (bs.map (fun b => b.bubbleId)).filter (fun s => s ≠ ""),
      st.bm.lookup i = none) →
    (bs.foldl (cloneBubbleStep uuid o n) st).bm =
        st.bm ++ freshMapSpec uuid (bs.map (fun b => b.bubbleId)) st.ctr ∧
    (bs.foldl (cloneBubbleStep uuid o n) st).ctr =
        st.ctr + countAccepted (bs.map (fun b => b.bubbleId)) := by
  intro bs
  induction bs with
  | nil =>
    intro st _ _
    simp [freshMapSpec, countAccepted]
  | cons b bs ih =>
    intro st hnd hnone
    rw [List.foldl_cons]
    by_cases hb : b.bubbleId = ""
    · have hstep : cloneBubbleStep uuid o n st b = st := by
        unfold cloneBubbleStep
        rw [if_pos hb]
      rw [hstep, List.map_cons, freshMapSpec_cons_neg _ _ _ _ hb,
        countAccepted_cons_neg _ hb]
      apply ih st
      · rw [List.map_cons, filter_ne_cons_neg _ _ hb] at hnd
        exact hnd
      · intro i hi
        apply hnone
        rw [List.map_cons, filter_ne_cons_neg _ _ hb]
        exact hi
    · have hmem : b.bubbleId ∈
          ((b :: bs).map (fun b => b.bubbleId)).filter (fun s => s ≠ "") := by
        rw [List.map_cons, filter_ne_cons_pos _ _ hb]
        exact List.mem_cons_self _ _
      have hmnone : st.bm.lookup b.bubbleId = none := hnone _ hmem
      have hstep : cloneBubbleStep uuid o n st b =
          ⟨st.nbs ++ [⟨"bubbleId:" ++ n ++ ":" ++ uuid st.ctr,
             rewriteBubbleValue b.value b.bubbleId (uuid st.ctr) o n, uuid st.ctr⟩],
           st.bm ++ [(b.bubbleId, uuid st.ctr)], st.ctr + 1⟩ := by
        unfold cloneBubbleStep
        rw [if_neg hb]
        show BubInnerState.mk
            (st.nbs ++ [⟨"bubbleId:" ++ n ++ ":" ++ uuid st.ctr,
              rewriteBubbleValue b.value b.bubbleId (uuid st.ctr) o n, uuid st.ctr⟩])
            (objSet st.bm b.bubbleId (uuid st.ctr)) (st.ctr + 1) = _
        rw [objSet_of_lookup_none _ _ _ hmnone]
      rw [hstep]
      have hndbs : ((bs.map (fun b => b.bubbleId)).filter (fun s => s ≠ "")).Nodup := by
        rw [List.map_cons, filter_ne_cons_pos _ _ hb] at hnd
        exact (List.nodup_cons.mp hnd).2
      have hhead : b.bubbleId ∉
          (bs.map (fun b => b.bubbleId)).filter (fun s => s ≠ "") := by
        rw [List.map_cons, filter_ne_cons_pos _ _ hb] at hnd
        exact (List.nodup_cons.mp hnd).1
      obtain ⟨ih1, ih2⟩ := ih ⟨st.nbs ++ [⟨"bubbleId:" ++ n ++ ":" ++ uuid st.ctr,
          rewriteBubbleValue b.value b.bubbleId (uuid st.ctr) o n, uuid st.ctr⟩],
          st.bm ++ [(b.bubbleId, uuid st.ctr)], st.ctr + 1⟩ hndbs (by
        intro i hi
        show (st.bm ++ [(b.bubbleId, uuid st.ctr)]).lookup i = none
        rw [List.lookup_append]
        rw [hnone i (by
          rw [List.map_cons, filter_ne_cons_pos _ _ hb]
          exact List.mem_cons_of_mem _ hi)]
        have hine : i ≠ b.bubbleId := fun he => hhead (he ▸ hi)
        simp [List.lookup_cons, beq_eq_false_iff_ne.mpr hine])
      constructor
      · rw [ih1]
        show (st.bm ++ [(b.bubbleId, uuid st.ctr)]) ++
            freshMapSpec uuid (bs.map (fun b => b.bubbleId)) (st.ctr + 1) = _
        rw [List.map_cons, freshMapSpec_cons_pos _ _ _ _ hb, List.append_assoc,
          List.singleton_append]
      · rw [ih2]
        show st.ctr + 1 + countAccepted (bs.map (fun b => b.bubbleId)) = _
        rw [List.map_cons, countAccepted_cons_pos _ hb]
        omega

theorem cloneBubOuter_foldl (uuid : Nat → String) (idMap : List (String × String)) :
    ∀ (entries : List (String × List Bubble)) (st : CloneBubState),
    (∀ e ∈ entries, ∃ nid, idMap.lookup e.1 = some nid ∧ nid ≠ "") →
    ((allBubbleIds entries).filter (fun s => s ≠ "")).Nodup →
    (∀ i ∈ (allBubbleIds entries).filter (fun s => s ≠ ""),
      st.bm.lookup i = none) →
    (entries.foldl (cloneBubEntryStep uuid idMap) st).bm =
        st.bm ++ freshMapSpec uuid (allBubbleIds entries) st.ctr ∧
    (entries.foldl (cloneBubEntryStep uuid idMap) st).ctr =
        st.ctr + countAccepted (allBubbleIds entries) := by
  intro entries
  induction entries with
  | nil =>
    intro st _ _ _
    simp [allBubbleIds, freshMapSpec, countAccepted]
  | cons e es ih =>
    intro st hmap hnd hnone
    obtain ⟨nid, hlk, hnid⟩ := hmap e (List.mem_cons_self e es)
    rw [List.foldl_cons]
    have hstep : cloneBubEntryStep uuid idMap st e = CloneBubState.mk
        (if (e.2.foldl (cloneBubbleStep uuid e.1 nid) ⟨[], st.bm, st.ctr⟩).nbs.length > 0 then
          objSet st.bb nid (e.2.foldl (cloneBubbleStep uuid e.1 nid) ⟨[], st.bm, st.ctr⟩).nbs
        else st.bb)
        (e.2.foldl (cloneBubbleStep uuid e.1 nid) ⟨[], st.bm, st.ctr⟩).bm
        (e.2.foldl (cloneBubbleStep uuid e.1 nid) ⟨[], st.bm, st.ctr⟩).ctr := by
      simp only [cloneBubEntryStep, hlk]
      rw [if_neg hnid]
    rw [hstep]
    have hsplit : (allBubbleIds (e :: es)).filter (fun s => s ≠ "") =
        (e.2.map (fun b => b.bubbleId)).filter (fun s => s ≠ "") ++
          (allBubbleIds es).filter (fun s => s ≠ "") := by
      rw [allBubbleIds_cons, List.filter_append]
    rw [hsplit] at hnd hnone
    obtain ⟨hnd1, hnd2, hdisj⟩ := List.nodup_append.mp hnd
    obtain ⟨hin1, hin2⟩ := cloneBubInner_foldl uuid e.1 nid e.2 ⟨[], st.bm, st.ctr⟩ hnd1
      (fun i hi => hnone i (List.mem_append_left _ hi))
    dsimp only at hin1 hin2
    obtain ⟨iho1, iho2⟩ := ih (CloneBubState.mk
        (if (e.2.foldl (cloneBubbleStep uuid e.1 nid) ⟨[], st.bm, st.ctr⟩).nbs.length > 0 then
          objSet st.bb nid (e.2.foldl (cloneBubbleStep uuid e.1 nid) ⟨[], st.bm, st.ctr⟩).nbs
        else st.bb)
        (e.2.foldl (cloneBubbleStep uuid e.1 nid) ⟨[], st.bm, st.ctr⟩).bm
        (e.2.foldl (cloneBubbleStep uuid e.1 nid) ⟨[], st.bm, st.ctr⟩).ctr)
      (fun e2 he2 => hmap e2 (List.mem_cons_of_mem e he2)) hnd2 (by
        intro i hi
        dsimp only
        rw [hin1, List.lookup_append, hnone i (List.mem_append_right _ hi)]
        exact freshMapSpec_lookup_none uuid _ _ i (fun hmem => hdisj hmem hi))
    dsimp only at iho1 iho2
    constructor
    · rw [iho1, hin1, hin2, allBubbleIds_cons, freshMapSpec_append, List.append_assoc]
    · rw [iho2, hin2, allBubbleIds_cons, countAccepted_append]
      omega

/-! ## Phase-4 coverage (C7) -/

theorem ensureDefaultStep_isSome_mono (cm : List (String × String))
    (e : String × String) (k : String) (h : (cm.lookup k).isSome) :
    ((ensureDefaultStep cm e).lookup k).isSome := by
  unfold ensureDefaultStep
  cases hv : cm.lookup e.2 with
  | none =>
    dsimp only
    exact objSet_lookup_isSome_mono cm e.2 k _ h
  | some v =>
    dsimp only
    by_cases hve : v = ""
    · rw [if_pos hve]
      exact objSet_lookup_isSome_mono cm e.2 k _ h
    · rw [if_neg hve]
      exact h

theorem foldl_ensureDefault_isSome_mono (entries : List (String × String))
    (cm : List (String × String)) (k : String) (h : (cm.lookup k).isSome) :
    ((entries.foldl ensureDefaultStep cm).lookup k).isSome := by
  induction entries generalizing cm with
  | nil => exact h
  | cons e es ih => exact ih (ensureDefaultStep cm e) (ensureDefaultStep_isSome_mono cm e k h)

theorem foldl_ensureDefault_covers (entries : List (String × String))
    (cm : List (String × String)) (e : String × String) (he : e ∈ entries) :
    ((entries.foldl ensureDefaultStep cm).lookup e.2).isSome := by
  induction entries generalizing cm with
  | nil => simp at he
  | cons f es ih =>
    rcases List.mem_cons.mp he with rfl | he'
    · rw [List.foldl_cons]
      apply foldl_ensureDefault_isSome_mono
      unfold ensureDefaultStep
      cases hv : cm.lookup e.2 with
      | none =>
        dsimp only
        rw [objSet_lookup_self]
        rfl
      | some v =>
        dsimp only
        by_cases hve : v = ""
        · rw [if_pos hve, objSet_lookup_self]
          rfl
        · rw [if_neg hve, hv]
          rfl
    · rw [List.foldl_cons]
      exact ih (ensureDefaultStep cm f) he'

/-! ## C7: no cloned record without a payload -/

/-- C7 counterexample.  With two input records sharing the composerId
`"a"`, the second `idMap["a"] = newId` assignment overwrites the first, so
only the second clone's new id is in `idMap`; the default-payload loop
walks `idMap` and therefore never synthesizes a payload for the first
clone, which ends up as metadata without a payload. -/
theorem clone_dangling_record :
    ∃ c ∈ (cloneExportObjectForCopy (fun n => if n = 0 then "u0" else "u1") 0
        (fun _ _ => none) ⟨[⟨"a", 0, 0, ""⟩, ⟨"a", 0, 0, ""⟩], [], []⟩).1.allComposers,
      ((cloneExportObjectForCopy (fun n => if n = 0 then "u0" else "u1") 0
        (fun _ _ => none) ⟨[⟨"a", 0, 0, ""⟩, ⟨"a", 0, 0, ""⟩], [], []⟩).1.composers).lookup
          c.composerId = none := by
  decide

/-- C7 amended.  Provided the (truthy) record ids of the input snapshot are
pairwise distinct, every record in the cloned `allComposers` list has a
payload entry in the cloned `composers` map: for records whose id had no
payload in the input, the default-payload loop synthesizes a minimal empty
document, so no cloned record has metadata without a payload.  (With
duplicate input record ids, earlier duplicates' clones can lack payloads,
as the counterexample shows.) -/
theorem clone_no_dangling (uuid : Nat → String) (now : Nat)
    (jsonSet : String → String → Option String) (obj : ExportObject)
    (hnd : ((obj.allComposers.map (fun c => c.composerId)).filter (fun s => s ≠ "")).Nodup) :
    ∀ c ∈ (cloneExportObjectForCopy uuid now jsonSet obj).1.allComposers,
      (((cloneExportObjectForCopy uuid now jsonSet obj).1.composers).lookup
        c.composerId).isSome := by
  intro c hc
  have hrs := cloneRecs_foldl uuid now obj.allComposers ⟨[], [], 0, 0⟩ hnd
    (fun i _ => rfl)
  have hcl : (cloneExportObjectForCopy uuid now jsonSet obj).1.allComposers =
      cloneRecsSpec uuid now obj.allComposers 0 0 := by
    show (obj.allComposers.foldl (cloneRecStep uuid now) ⟨[], [], 0, 0⟩).cl = _
    rw [hrs]
    simp
  have hm : (obj.allComposers.foldl (cloneRecStep uuid now) ⟨[], [], 0, 0⟩).m =
      freshMapSpec uuid (obj.allComposers.map (fun c => c.composerId)) 0 := by
    rw [hrs]
    simp
  rw [hcl] at hc
  obtain ⟨o, ho⟩ := cloneRecsSpec_ids uuid now obj.allComposers 0 0 c hc
  obtain ⟨cm, hcm⟩ : ∃ cm, (cloneExportObjectForCopy uuid now jsonSet obj).1.composers =
      ((obj.allComposers.foldl (cloneRecStep uuid now) ⟨[], [], 0, 0⟩).m).foldl
        ensureDefaultStep cm := ⟨_, rfl⟩
  rw [hcm, hm]
  exact foldl_ensureDefault_covers _ cm (o, c.composerId) ho

theorem clone_no_dangling_witness :
    (((cloneExportObjectForCopy (fun n => if n = 0 then "u0" else "u1") 0
        (fun _ _ => none) ⟨[⟨"a", 0, 0, ""⟩, ⟨"b", 0, 0, ""⟩], [], []⟩).1.composers).lookup
          "u0").isSome :=
  clone_no_dangling (fun n => if n = 0 then "u0" else "u1") 0 (fun _ _ => none)
    ⟨[⟨"a", 0, 0, ""⟩, ⟨"b", 0, 0, ""⟩], [], []⟩ (by decide)
    ⟨"u0", 0, 0, ""⟩ (by decide)

/-! ## C2: remap injectivity and freshness -/

/-- The old record ids of a snapshot, in Index order. -/
def recordIds (obj : ExportObject) : List String :=
  obj.allComposers.map (fun c => c.composerId)

/-- The number of fragments of a snapshot. -/
def totalFragments (obj : ExportObject) : Nat :=
  (obj.bubbles.map (fun e => e.2.length)).sum

/-- All identifiers appearing in the input snapshot. -/
def inputIds (obj : ExportObject) : List String :=
  recordIds obj ++ obj.bubbles.map Prod.fst ++ allBubbleIds obj.bubbles

/-- The number of fresh identifiers the clone draws: one per record, then
one per fragment. -/
def usedCount (obj : ExportObject) : Nat :=
  obj.allComposers.length + totalFragments obj

/-- C2. For a well-formed snapshot (records with nonempty pairwise-distinct
ids, fragments with nonempty globally-distinct ids filed under their
record's id), provided the identifier generator is injective and avoids the
input identifiers on the indices it is consulted at — the formal
counterpart of "sufficiently large random identifiers" —
`cloneExportObjectForCopy` produces an `idMap` with exactly N entries and a
`bubbleIdMap` with exactly M entries, both injective, and every output
identifier avoids every input identifier. -/
theorem clone_remap_injective (uuid : Nat → String) (now : Nat)
    (jsonSet : String → String → Option String) (obj : ExportObject)
    (hne : ∀ c ∈ obj.allComposers, c.composerId ≠ "")
    (hnd : (recordIds obj).Nodup)
    (hkeys : ∀ e ∈ obj.bubbles, e.1 ∈ recordIds obj)
    (hbne : ∀ e ∈ obj.bubbles, ∀ b ∈ e.2, b.bubbleId ≠ "")
    (hbnd : (allBubbleIds obj.bubbles).Nodup)
    (huinj : ∀ i, i < usedCount obj → ∀ j, j < usedCount obj → uuid i = uuid j → i = j)
    (hufresh : ∀ i, i < usedCount obj → uuid i ∉ inputIds obj ∧ uuid i ≠ "") :
    (cloneExportObjectForCopy uuid now jsonSet obj).2.1.length = obj.allComposers.length ∧
    (cloneExportObjectForCopy uuid now jsonSet obj).2.2.length = totalFragments obj ∧
    (∀ p ∈ (cloneExportObjectForCopy uuid now jsonSet obj).2.1,
      ∀ q ∈ (cloneExportObjectForCopy uuid now jsonSet obj).2.1, p.2 = q.2 → p.1 = q.1) ∧
    (∀ p ∈ (cloneExportObjectForCopy uuid now jsonSet obj).2.2,
      ∀ q ∈ (cloneExportObjectForCopy uuid now jsonSet obj).2.2, p.2 = q.2 → p.1 = q.1) ∧
    (∀ p ∈ (cloneExportObjectForCopy uuid now jsonSet obj).2.1, p.2 ∉ inputIds obj) ∧
    (∀ p ∈ (cloneExportObjectForCopy uuid now jsonSet obj).2.2, p.2 ∉ inputIds obj) := by
  have hneall : ∀ i ∈ recordIds obj, i ≠ "" := by
    intro i hi
    obtain ⟨d, hd, rfl⟩ := List.mem_map.mp hi
    exact hne d hd
  have hfeq : (recordIds obj).filter (fun s => s ≠ "") = recordIds obj :=
    List.filter_eq_self.mpr (fun i hi => decide_eq_true (hneall i hi))
  have hndf : (((obj.allComposers.map (fun c => c.composerId))).filter
      (fun s => s ≠ "")).Nodup := by
    show ((recordIds obj).filter (fun s => s ≠ "")).Nodup
    rw [hfeq]
    exact hnd
  have hcA : countAccepted (recordIds obj) = obj.allComposers.length := by
    rw [countAccepted_of_all_ne _ hneall]
    exact List.length_map _ _
  have hball : ∀ i ∈ allBubbleIds obj.bubbles, i ≠ "" := by
    intro i hi
    obtain ⟨e, he, hi2⟩ := List.mem_flatMap.mp hi
    obtain ⟨b, hb, rfl⟩ := List.mem_map.mp hi2
    exact hbne e he b hb
  have hbfeq : (allBubbleIds obj.bubbles).filter (fun s => s ≠ "") =
      allBubbleIds obj.bubbles :=
    List.filter_eq_self.mpr (fun i hi => decide_eq_true (hball i hi))
  have hbndf : ((allBubbleIds obj.bubbles).filter (fun s => s ≠ "")).Nodup := by
    rw [hbfeq]; exact hbnd
  have hcB : countAccepted (allBubbleIds obj.bubbles) = totalFragments obj := by
    rw [countAccepted_of_all_ne _ hball]
    unfold allBubbleIds totalFragments
    rw [List.length_flatMap]
    congr 1
    apply List.map_congr_left
    intro e _
    exact List.length_map _ _
  have hNused : obj.allComposers.length ≤ usedCount obj := by
    unfold usedCount; omega
  have hrs := cloneRecs_foldl uuid now obj.allComposers ⟨[], [], 0, 0⟩ hndf
    (fun i _ => rfl)
  have hidMap : (cloneExportObjectForCopy uuid now jsonSet obj).2.1 =
      freshMapSpec uuid (recordIds obj) 0 := by
    show (obj.allComposers.foldl (cloneRecStep uuid now) ⟨[], [], 0, 0⟩).m = _
    rw [hrs]
    simp [recordIds]
  have hmap : ∀ e ∈ obj.bubbles, ∃ nid,
      (freshMapSpec uuid (recordIds obj) 0).lookup e.1 = some nid ∧ nid ≠ "" := by
    intro e he
    have he1 : e.1 ∈ recordIds obj := hkeys e he
    obtain ⟨j, hj1, hj2, hj3⟩ := freshMapSpec_lookup uuid (recordIds obj) 0 e.1 he1
      (hneall e.1 he1)
    refine ⟨uuid j, hj3, (hufresh j ?_).2⟩
    rw [hcA] at hj2
    unfold usedCount
    omega
  have hbouter := cloneBubOuter_foldl uuid (freshMapSpec uuid (recordIds obj) 0)
    obj.bubbles ⟨[], [], obj.allComposers.length⟩ hmap hbndf (fun i _ => rfl)
  have hbm : (cloneExportObjectForCopy uuid now jsonSet obj).2.2 =
      freshMapSpec uuid (allBubbleIds obj.bubbles) obj.allComposers.length := by
    show (obj.bubbles.foldl (cloneBubEntryStep uuid
        (obj.allComposers.foldl (cloneRecStep uuid now) ⟨[], [], 0, 0⟩).m)
        ⟨[], [], (obj.allComposers.foldl (cloneRecStep uuid now) ⟨[], [], 0, 0⟩).ctr⟩).bm = _
    rw [hrs]
    show (obj.bubbles.foldl (cloneBubEntryStep uuid
        ([] ++ freshMapSpec uuid (recordIds obj) 0))
        ⟨[], [], 0 + countAccepted (recordIds obj)⟩).bm = _
    rw [List.nil_append, Nat.zero_add, hcA]
    rw [hbouter.1]
    exact List.nil_append _
  refine ⟨?_, ?_, ?_, ?_, ?_, ?_⟩
  · rw [hidMap, freshMapSpec_length, hcA]
  · rw [hbm, freshMapSpec_length, hcB]
  · rw [hidMap]
    apply freshMapSpec_inj uuid (usedCount obj) huinj (recordIds obj) 0
    rw [Nat.zero_add, hcA]
    exact hNused
  · rw [hbm]
    apply freshMapSpec_inj uuid (usedCount obj) huinj (allBubbleIds obj.bubbles)
      obj.allComposers.length
    rw [hcB]
    unfold usedCount
    omega
  · rw [hidMap]
    intro p hp
    obtain ⟨j, hj1, hj2, hj3, -⟩ := freshMapSpec_mem uuid (recordIds obj) 0 p hp
    rw [Nat.zero_add, hcA] at hj2
    rw [hj3]
    exact (hufresh j (by unfold usedCount; omega)).1
  · rw [hbm]
    intro p hp
    obtain ⟨j, hj1, hj2, hj3, -⟩ :=
      freshMapSpec_mem uuid (allBubbleIds obj.bubbles) obj.allComposers.length p hp
    rw [hcB] at hj2
    rw [hj3]
    exact (hufresh j (by unfold usedCount; omega)).1

theorem clone_remap_injective_witness :
    (cloneExportObjectForCopy (fun n => if n = 0 then "X" else "Y") 0 (fun _ _ => none)
        ⟨[⟨"r1", 0, 0, ""⟩], [("r1", "p")], [("r1", [⟨"bubbleId:r1:b1", "v", "b1"⟩])]⟩).2.1.length
      = 1 ∧
    (cloneExportObjectForCopy (fun n => if n = 0 then "X" else "Y") 0 (fun _ _ => none)
        ⟨[⟨"r1", 0, 0, ""⟩], [("r1", "p")], [("r1", [⟨"bubbleId:r1:b1", "v", "b1"⟩])]⟩).2.2.length
      = totalFragments ⟨[⟨"r1", 0, 0, ""⟩], [("r1", "p")],
          [("r1", [⟨"bubbleId:r1:b1", "v", "b1"⟩])]⟩ ∧
    (∀ p ∈ (cloneExportObjectForCopy (fun n => if n = 0 then "X" else "Y") 0 (fun _ _ => none)
        ⟨[⟨"r1", 0, 0, ""⟩], [("r1", "p")], [("r1", [⟨"bubbleId:r1:b1", "v", "b1"⟩])]⟩).2.1,
      ∀ q ∈ (cloneExportObjectForCopy (fun n => if n = 0 then "X" else "Y") 0 (fun _ _ => none)
        ⟨[⟨"r1", 0, 0, ""⟩], [("r1", "p")], [("r1", [⟨"bubbleId:r1:b1", "v", "b1"⟩])]⟩).2.1,
      p.2 = q.2 → p.1 = q.1) ∧
    (∀ p ∈ (cloneExportObjectForCopy (fun n => if n = 0 then "X" else "Y") 0 (fun _ _ => none)
        ⟨[⟨"r1", 0, 0, ""⟩], [("r1", "p")], [("r1", [⟨"bubbleId:r1:b1", "v", "b1"⟩])]⟩).2.2,
      ∀ q ∈ (cloneExportObjectForCopy (fun n => if n = 0 then "X" else "Y") 0 (fun _ _ => none)
        ⟨[⟨"r1", 0, 0, ""⟩], [("r1", "p")], [("r1", [⟨"bubbleId:r1:b1", "v", "b1"⟩])]⟩).2.2,
      p.2 = q.2 → p.1 = q.1) ∧
    (∀ p ∈ (cloneExportObjectForCopy (fun n => if n = 0 then "X" else "Y") 0 (fun _ _ => none)
        ⟨[⟨"r1", 0, 0, ""⟩], [("r1", "p")], [("r1", [⟨"bubbleId:r1:b1", "v", "b1"⟩])]⟩).2.1,
      p.2 ∉ inputIds ⟨[⟨"r1", 0, 0, ""⟩], [("r1", "p")],
        [("r1", [⟨"bubbleId:r1:b1", "v", "b1"⟩])]⟩) ∧
    (∀ p ∈ (cloneExportObjectForCopy (fun n => if n = 0 then "X" else "Y") 0 (fun _ _ => none)
        ⟨[⟨"r1", 0, 0, ""⟩], [("r1", "p")], [("r1", [⟨"bubbleId:r1:b1", "v", "b1"⟩])]⟩).2.2,
      p.2 ∉ inputIds ⟨[⟨"r1", 0, 0, ""⟩], [("r1", "p")],
        [("r1", [⟨"bubbleId:r1:b1", "v", "b1"⟩])]⟩) :=
  clone_remap_injective (fun n => if n = 0 then "X" else "Y") 0 (fun _ _ => none)
    ⟨[⟨"r1", 0, 0, ""⟩], [("r1", "p")], [("r1", [⟨"bubbleId:r1:b1", "v", "b1"⟩])]⟩
    (by decide) (by decide) (by decide) (by decide) (by decide) (by decide) (by decide)

/-! ## C1: merge idempotence -/

theorem additionsLoop_fresh : ∀ (cs : List Composer) (seen : List String),
    ((additionsLoop cs seen).map (fun c => c.composerId)).Nodup ∧
    ∀ i ∈ (additionsLoop cs seen).map (fun c => c.composerId), i ∉ seen ∧ i ≠ "" := by
  intro cs
  induction cs with
  | nil => intro seen; exact ⟨List.nodup_nil, by simp [additionsLoop]⟩
  | cons c cs ih =>
    intro seen
    unfold additionsLoop
    by_cases hacc : c.composerId ≠ "" ∧ c.composerId ∉ seen
    · rw [if_pos hacc]
      obtain ⟨ihnd, ihfresh⟩ := ih (seen ++ [c.composerId])
      constructor
      · rw [List.map_cons]
        refine List.nodup_cons.mpr ⟨?_, ihnd⟩
        intro hmem
        exact (ihfresh _ hmem).1 (List.mem_append_right seen (List.mem_singleton.mpr rfl))
      · intro i hi
        rw [List.map_cons] at hi
        rcases List.mem_cons.mp hi with rfl | hi'
        · exact ⟨hacc.2, hacc.1⟩
        · obtain ⟨hnot, hne⟩ := ihfresh i hi'
          exact ⟨fun hmem => hnot (List.mem_append_left _ hmem), hne⟩
    · rw [if_neg hacc]
      exact ih seen

theorem additionsLoop_coverage : ∀ (cs : List Composer) (seen : List String)
    (c : Composer), c ∈ cs → c.composerId ≠ "" →
    c.composerId ∈ seen ∨
      c.composerId ∈ (additionsLoop cs seen).map (fun c => c.composerId) := by
  intro cs
  induction cs with
  | nil => intro seen c hc; simp at hc
  | cons d cs ih =>
    intro seen c hc hne
    unfold additionsLoop
    by_cases hacc : d.composerId ≠ "" ∧ d.composerId ∉ seen
    · rw [if_pos hacc]
      rcases List.mem_cons.mp hc with rfl | hc'
      · right
        rw [List.map_cons]
        exact List.mem_cons_self _ _
      · rcases ih (seen ++ [d.composerId]) c hc' hne with hmem | hmem
        · rcases List.mem_append.mp hmem with hmem' | hmem'
          · exact Or.inl hmem'
          · right
            rw [List.map_cons, List.mem_singleton.mp hmem']
            exact List.mem_cons_self _ _
        · right
          rw [List.map_cons]
          exact List.mem_cons_of_mem _ hmem
    · rw [if_neg hacc]
      rcases List.mem_cons.mp hc with rfl | hc'
      · left
        rcases not_and_or.mp hacc with h1 | h2
        · exact absurd hne (by simpa using h1)
        · simpa using h2
      · exact ih seen c hc' hne

theorem additionsLoop_nil_of_covered : ∀ (cs : List Composer) (seen : List String),
    (∀ c ∈ cs, c.composerId ≠ "" → c.composerId ∈ seen) →
    additionsLoop cs seen = [] := by
  intro cs
  induction cs with
  | nil => intro seen _; rfl
  | cons c cs ih =>
    intro seen hcov
    unfold additionsLoop
    rw [if_neg (by
      rintro ⟨h1, h2⟩
      exact h2 (hcov c (List.mem_cons_self c cs) h1))]
    exact ih seen (fun d hd => hcov d (List.mem_cons_of_mem c hd))

/-- C1 counterexample.  `insertKVWithCLI` returns `keyValuePairs.length`,
the number of attempted insertions, so the second identical import of a
snapshot with one payload pair reports 1, not 0. -/
theorem importFromObject_second_count :
    (importFromObject ⟨[⟨"a", 0, 0, ""⟩], [("a", "v")], []⟩
        (importFromObject ⟨[⟨"a", 0, 0, ""⟩], [("a", "v")], []⟩ ⟨none⟩ ⟨[]⟩).2.1
        (importFromObject ⟨[⟨"a", 0, 0, ""⟩], [("a", "v")], []⟩ ⟨none⟩ ⟨[]⟩).2.2).1 ≠ 0 := by
  decide

/-- C1 amended.  Merging the same snapshot twice is idempotent on the
stores: the second `importFromObject` leaves the workspace Index and the
global payload store exactly as the first call left them (so there are no
duplicate composerId entries and no duplicate payload keys), existing
payload keys are never overwritten, and a Nodup Index stays Nodup — but
the `inserted` count reported by the second call is the number of
key-value pairs in the snapshot (the attempted insertions), not 0. -/
theorem importFromObject_idempotent (obj : ExportObject) (ws : WsFile) (gl : GlFile) :
    (importFromObject obj (importFromObject obj ws gl).2.1
        (importFromObject obj ws gl).2.2).2.1 = (importFromObject obj ws gl).2.1 ∧
    (importFromObject obj (importFromObject obj ws gl).2.1
        (importFromObject obj ws gl).2.2).2.2 = (importFromObject obj ws gl).2.2 ∧
    (importFromObject obj (importFromObject obj ws gl).2.1
        (importFromObject obj ws gl).2.2).1 = (kvPairsOf obj).length ∧
    (∀ k v, gl.kv.lookup k = some v →
      ((importFromObject obj ws gl).2.2).kv.lookup k = some v) ∧
    ((wsIds ws).Nodup → (wsIds (importFromObject obj ws gl).2.1).Nodup) := by
  have hgl1 : (importFromObject obj ws gl).2.2 =
      ⟨(kvPairsOf obj).foldl insertOrIgnore gl.kv⟩ := rfl
  have hws1 : (importFromObject obj ws gl).2.1 =
      (if (additionsLoop obj.allComposers (wsIds ws)).length > 0 then
        WsFile.mk (some { wsDoc ws with allComposers :=
          (wsDoc ws).allComposers ++ additionsLoop obj.allComposers (wsIds ws) })
      else ws) := rfl
  have hA : wsIds (importFromObject obj ws gl).2.1 =
      wsIds ws ++ (additionsLoop obj.allComposers (wsIds ws)).map (fun c => c.composerId) := by
    rw [hws1]
    by_cases h : (additionsLoop obj.allComposers (wsIds ws)).length > 0
    · rw [if_pos h]
      show (((wsDoc ws).allComposers ++
          additionsLoop obj.allComposers (wsIds ws)).map (fun c => c.composerId)).filter
            (fun s => s ≠ "") = _
      rw [List.map_append, List.filter_append]
      congr 1
      apply List.filter_eq_self.mpr
      intro i hi
      have hfresh := (additionsLoop_fresh obj.allComposers (wsIds ws)).2 i hi
      exact decide_eq_true hfresh.2
    · rw [if_neg h]
      have hnil : additionsLoop obj.allComposers (wsIds ws) = [] :=
        List.length_eq_zero.mp (Nat.eq_zero_of_not_pos h)
      rw [hnil, List.map_nil, List.append_nil]
  have hadds2 : additionsLoop obj.allComposers
      (wsIds (importFromObject obj ws gl).2.1) = [] := by
    apply additionsLoop_nil_of_covered
    intro c hc hne
    rw [hA]
    rcases additionsLoop_coverage obj.allComposers (wsIds ws) c hc hne with h | h
    · exact List.mem_append_left _ h
    · exact List.mem_append_right _ h
  refine ⟨?_, ?_, rfl, ?_, ?_⟩
  · show (if (additionsLoop obj.allComposers
        (wsIds (importFromObject obj ws gl).2.1)).length > 0 then _ else _) = _
    rw [hadds2]
    rfl
  · show GlFile.mk ((kvPairsOf obj).foldl insertOrIgnore
        ((importFromObject obj ws gl).2.2).kv) = _
    have hkeys : ∀ p ∈ kvPairsOf obj,
        (((importFromObject obj ws gl).2.2).kv.lookup p.1).isSome := by
      intro p hp
      rw [hgl1]
      exact foldl_insertOrIgnore_mem (kvPairsOf obj) gl.kv p hp
    rw [foldl_insertOrIgnore_of_all_present (kvPairsOf obj) _ hkeys]
  · intro k v hkv
    rw [hgl1]
    exact foldl_insertOrIgnore_lookup_some (kvPairsOf obj) gl.kv hkv
  · intro hnd
    rw [hA]
    rcases additionsLoop_fresh obj.allComposers (wsIds ws) with ⟨hnd2, hfresh⟩
    rw [List.nodup_append]
    exact ⟨hnd, hnd2, fun i hi hmem => (hfresh i hmem).1 hi⟩

theorem buildExportObject_selection_witness :
    (["b"] ≠ ([] : List String) →
      (buildExportObject ⟨some ⟨[⟨"a", 0, 0, ""⟩, ⟨"b", 0, 0, ""⟩], ""⟩⟩ ⟨[]⟩ (some ["b"])).allComposers =
        List.filter (fun c => List.contains ["b"] c.composerId)
          [⟨"a", 0, 0, ""⟩, ⟨"b", 0, 0, ""⟩]) ∧
    (["b"] = ([] : List String) →
      (buildExportObject ⟨some ⟨[⟨"a", 0, 0, ""⟩, ⟨"b", 0, 0, ""⟩], ""⟩⟩ ⟨[]⟩ (some ["b"])).allComposers =
        [⟨"a", 0, 0, ""⟩, ⟨"b", 0, 0, ""⟩]) :=
  buildExportObject_selection ⟨some ⟨[⟨"a", 0, 0, ""⟩, ⟨"b", 0, 0, ""⟩], ""⟩⟩ ⟨[]⟩ ["b"]
    ⟨[⟨"a", 0, 0, ""⟩, ⟨"b", 0, 0, ""⟩], ""⟩ rfl

end CCT
